import Mathlib

/-! # Trimui controller tester: a verification development

A shallow embedding of `apps/Trimui-App/src/main.cpp` (the controller
visualizer) together with theorems about its event handling, its axis
normalisation, its circle rasterisation and its resource handling.

Conventions of the embedding:

* C++ `int` values are the integers from `-2^31` to `2^31 - 1`.  Every `int`
  addition, subtraction and multiplication of the source is modelled by
  `iadd`, `isub` and `imul`, which reduce the exact result modulo `2^32` into
  that range: this is what the two's-complement hardware of the target computes
  when a result does not fit.  A conversion `static_cast<int>` of a `float`
  whose truncation does not fit has no defined result and is modelled by
  `none`.
* C++ `float` values are the rationals that IEEE-754 binary32 numbers denote.
  Every arithmetic operation first computes the exact rational result and then
  rounds it to binary32 with round-to-nearest, ties-to-even (`roundF32`), which
  is what IEEE-754 prescribes for `/`, `*` and for conversions, and what a
  target that evaluates `float` expressions in `float` precision computes.
  Magnitudes in this program stay far below `2^128`, so infinities never arise.
* SDL calls that draw are modelled by the list of primitives they are called
  with; SDL calls that acquire or release a handle are modelled by a trace.
-/

namespace TrimuiApp

/-! ## Constants of `main.cpp` and of the SDL headers -/

def SCREEN_WIDTH : Int := 1280
def SCREEN_HEIGHT : Int := 720

abbrev MAX_BUTTON_INDEX : Nat := 18

/-- The macros `BUTTON_L2` and `BUTTON_R2`, as indices into `buttons`. -/
abbrev BUTTON_L2 : Fin MAX_BUTTON_INDEX := 16
abbrev BUTTON_R2 : Fin MAX_BUTTON_INDEX := 17

/-- Values of `SDL_GameControllerButton` in `SDL_gamecontroller.h`, as indices
into `buttons`. -/
abbrev SDL_CONTROLLER_BUTTON_A : Fin MAX_BUTTON_INDEX := 0
abbrev SDL_CONTROLLER_BUTTON_B : Fin MAX_BUTTON_INDEX := 1
abbrev SDL_CONTROLLER_BUTTON_X : Fin MAX_BUTTON_INDEX := 2
abbrev SDL_CONTROLLER_BUTTON_Y : Fin MAX_BUTTON_INDEX := 3
abbrev SDL_CONTROLLER_BUTTON_BACK : Fin MAX_BUTTON_INDEX := 4
abbrev SDL_CONTROLLER_BUTTON_GUIDE : Fin MAX_BUTTON_INDEX := 5
abbrev SDL_CONTROLLER_BUTTON_START : Fin MAX_BUTTON_INDEX := 6
abbrev SDL_CONTROLLER_BUTTON_LEFTSHOULDER : Fin MAX_BUTTON_INDEX := 9
abbrev SDL_CONTROLLER_BUTTON_RIGHTSHOULDER : Fin MAX_BUTTON_INDEX := 10
abbrev SDL_CONTROLLER_BUTTON_DPAD_UP : Fin MAX_BUTTON_INDEX := 11
abbrev SDL_CONTROLLER_BUTTON_DPAD_DOWN : Fin MAX_BUTTON_INDEX := 12
abbrev SDL_CONTROLLER_BUTTON_DPAD_LEFT : Fin MAX_BUTTON_INDEX := 13
abbrev SDL_CONTROLLER_BUTTON_DPAD_RIGHT : Fin MAX_BUTTON_INDEX := 14

/-- Values of `SDL_GameControllerAxis` in `SDL_gamecontroller.h`. -/
def SDL_CONTROLLER_AXIS_LEFTX : Nat := 0
def SDL_CONTROLLER_AXIS_LEFTY : Nat := 1
def SDL_CONTROLLER_AXIS_RIGHTX : Nat := 2
def SDL_CONTROLLER_AXIS_RIGHTY : Nat := 3
def SDL_CONTROLLER_AXIS_TRIGGERLEFT : Nat := 4
def SDL_CONTROLLER_AXIS_TRIGGERRIGHT : Nat := 5

/-! ## 32-bit integer arithmetic -/

/-- The `int` that a 32-bit two's-complement register holds for the exact
result `n`: the representative of `n` modulo `2^32` between `-2^31` and
`2^31 - 1`. -/
def wrapInt (n : Int) : Int := (n + 2147483648) % 4294967296 - 2147483648

/-- The sum `a + b` of two `int`s. -/
def iadd (a b : Int) : Int := wrapInt (a + b)

/-- The difference `a - b` of two `int`s. -/
def isub (a b : Int) : Int := wrapInt (a - b)

/-- The product `a * b` of two `int`s. -/
def imul (a b : Int) : Int := wrapInt (a * b)

/-! ## binary32 arithmetic -/

/-- Round a rational to the nearest integer, ties going to the even one. -/
def roundNearestEven (t : ℚ) : ℤ :=
  if t - ⌊t⌋ < 1 / 2 then ⌊t⌋
  else if 1 / 2 < t - ⌊t⌋ then ⌊t⌋ + 1
  else if ⌊t⌋ % 2 = 0 then ⌊t⌋ else ⌊t⌋ + 1

/-- Exponent of the binade of `q` in binary32: the position of the leading
bit, never below the exponent `-126` shared by the subnormal numbers. -/
def f32Exponent (q : ℚ) : ℤ := max (Int.log 2 |q|) (-126)

/-- The binary32 number nearest to the rational `q` (24 significant bits,
ties to even). -/
def roundF32 (q : ℚ) : ℚ :=
  if q = 0 then 0
  else (roundNearestEven (q / 2 ^ (f32Exponent q - 23)) : ℚ) * 2 ^ (f32Exponent q - 23)

/-- Conversion `int -> float`. -/
def intToFloat (n : Int) : ℚ := roundF32 n

/-- The value of a `float` literal written in decimal. -/
def floatLit (q : ℚ) : ℚ := roundF32 q

/-- Division of two `float`s. -/
def fdiv (a b : ℚ) : ℚ := roundF32 (a / b)

/-- Product of two `float`s. -/
def fmul (a b : ℚ) : ℚ := roundF32 (a * b)

/-- Truncation of a rational toward zero. -/
def truncate (q : ℚ) : Int := if 0 ≤ q then ⌊q⌋ else ⌈q⌉

/-- The conversion `static_cast<int>(float)`: truncation toward zero when the
result fits in an `int`; the conversion has no defined result otherwise. -/
def floatToInt (q : ℚ) : Option Int :=
  if -2147483648 ≤ truncate q ∧ truncate q ≤ 2147483647 then some (truncate q) else none

/-! ## Data model -/

/-- The `struct Color`: four `uint8_t` channels. -/
structure Color where
  r : Nat
  g : Nat
  b : Nat
  a : Nat
  deriving DecidableEq, Repr

structure SDL_Rect where
  x : Int
  y : Int
  w : Int
  h : Int
  deriving DecidableEq, Repr

structure SDL_Point where
  x : Int
  y : Int
  deriving DecidableEq, Repr

/-- The `class Button`. -/
structure Button where
  rect : SDL_Rect
  name : String
  pressed : Bool
  normalColor : Color
  pressedColor : Color
  deriving DecidableEq, Repr

/-- The four-argument constructor of `Button`: `pressed(false)`. -/
def Button.new (rect : SDL_Rect) (name : String) (normalColor pressedColor : Color) : Button :=
  { rect := rect, name := name, pressed := false,
    normalColor := normalColor, pressedColor := pressedColor }

def Button.isPressed (b : Button) : Bool := b.pressed

def Button.setPressed (b : Button) (p : Bool) : Button := { b with pressed := p }

def Button.getCurrentColor (b : Button) : Color :=
  if b.pressed then b.pressedColor else b.normalColor

/-- The `class AnalogStick`; the two `float` fields hold binary32 values. -/
structure AnalogStick where
  centerX : Int
  centerY : Int
  radius : Int
  stickRadius : Int
  xValue : ℚ
  yValue : ℚ
  name : String
  baseColor : Color
  stickColor : Color

/-- The constructor of `AnalogStick`: `xValue(0.0f), yValue(0.0f)`. -/
def AnalogStick.new (centerX centerY radius stickRadius : Int) (name : String)
    (baseColor stickColor : Color) : AnalogStick :=
  { centerX := centerX, centerY := centerY, radius := radius, stickRadius := stickRadius,
    xValue := 0, yValue := 0, name := name, baseColor := baseColor, stickColor := stickColor }

def AnalogStick.setXValue (s : AnalogStick) (value : ℚ) : AnalogStick := { s with xValue := value }

def AnalogStick.setYValue (s : AnalogStick) (value : ℚ) : AnalogStick := { s with yValue := value }

/-- Method `AnalogStick::getStickPosition`: the `int` difference
`radius - stickRadius` is converted to `float`, multiplied in `float`, the
product is cast back to `int` and added to the centre coordinate in `int`. -/
def AnalogStick.getStickPosition (s : AnalogStick) : Option SDL_Point :=
  match floatToInt (fmul s.xValue (intToFloat (isub s.radius s.stickRadius))),
        floatToInt (fmul s.yValue (intToFloat (isub s.radius s.stickRadius))) with
  | some dx, some dy => some ⟨iadd s.centerX dx, iadd s.centerY dy⟩
  | _, _ => none

/-- The part of `class ControllerVisualizer` that the event handlers read and
write: `buttons`, `sticks` and `running`. -/
structure ControllerVisualizer where
  buttons : Fin MAX_BUTTON_INDEX → Button
  sticks : Fin 2 → AnalogStick
  running : Bool

/-- An `SDL_Event` as far as `handleEvent` looks at it.  `button` and `axis`
are `Uint8` fields, `value` is the `Sint16` field of `SDL_ControllerAxisEvent`;
`other` stands for every event type without a `case`. -/
inductive SDL_Event where
  | quit
  | controllerButtonDown (button : Nat)
  | controllerButtonUp (button : Nat)
  | controllerAxisMotion (axis : Nat) (value : Int)
  | other
  deriving DecidableEq, Repr

/-- The assignment `buttons[i] = b`. -/
def ControllerVisualizer.assignButton (v : ControllerVisualizer) (i : Fin MAX_BUTTON_INDEX) (b : Button) :
    ControllerVisualizer :=
  { v with buttons := Function.update v.buttons i b }

/-- The call `buttons[i].setPressed(p)`. -/
def ControllerVisualizer.pressButton (v : ControllerVisualizer) (i : Fin MAX_BUTTON_INDEX) (p : Bool) :
    ControllerVisualizer :=
  { v with buttons := Function.update v.buttons i ((v.buttons i).setPressed p) }

/-- The assignment `sticks[i] = st`. -/
def ControllerVisualizer.assignStick (v : ControllerVisualizer) (i : Fin 2) (st : AnalogStick) :
    ControllerVisualizer :=
  { v with sticks := Function.update v.sticks i st }

/-- Method `ControllerVisualizer::setupLayout`: fifteen buttons and both sticks are
assigned; the entries 7, 8 and 15 of `buttons` keep whatever they held. -/
def setupLayout (v : ControllerVisualizer) : ControllerVisualizer :=
  let gray : Color := ⟨100, 100, 100, 255⟩
  let yellow : Color := ⟨255, 255, 0, 255⟩
  let v := v.assignButton SDL_CONTROLLER_BUTTON_DPAD_UP
    (Button.new ⟨240, 260, 60, 60⟩ "UP" gray yellow)
  let v := v.assignButton SDL_CONTROLLER_BUTTON_DPAD_DOWN
    (Button.new ⟨240, 380, 60, 60⟩ "DOWN" gray yellow)
  let v := v.assignButton SDL_CONTROLLER_BUTTON_DPAD_LEFT
    (Button.new ⟨180, 320, 60, 60⟩ "LEFT" gray yellow)
  let v := v.assignButton SDL_CONTROLLER_BUTTON_DPAD_RIGHT
    (Button.new ⟨300, 320, 60, 60⟩ "RIGHT" gray yellow)
  let v := v.assignButton SDL_CONTROLLER_BUTTON_A
    (Button.new ⟨980, 380, 60, 60⟩ "B" gray yellow)
  let v := v.assignButton SDL_CONTROLLER_BUTTON_B
    (Button.new ⟨1040, 320, 60, 60⟩ "A" gray yellow)
  let v := v.assignButton SDL_CONTROLLER_BUTTON_X
    (Button.new ⟨920, 320, 60, 60⟩ "Y" gray yellow)
  let v := v.assignButton SDL_CONTROLLER_BUTTON_Y
    (Button.new ⟨980, 260, 60, 60⟩ "X" gray yellow)
  let v := v.assignButton SDL_CONTROLLER_BUTTON_LEFTSHOULDER
    (Button.new ⟨200, 180, 80, 40⟩ "L1" gray yellow)
  let v := v.assignButton SDL_CONTROLLER_BUTTON_RIGHTSHOULDER
    (Button.new ⟨1000, 180, 80, 40⟩ "R1" gray yellow)
  let v := v.assignButton BUTTON_L2
    (Button.new ⟨200, 130, 80, 40⟩ "L2" gray yellow)
  let v := v.assignButton BUTTON_R2
    (Button.new ⟨1000, 130, 80, 40⟩ "R2" gray yellow)
  let v := v.assignButton SDL_CONTROLLER_BUTTON_START
    (Button.new ⟨900, 520, 80, 40⟩ "START" gray yellow)
  let v := v.assignButton SDL_CONTROLLER_BUTTON_BACK
    (Button.new ⟨820, 520, 80, 40⟩ "SELECT" gray yellow)
  let v := v.assignButton SDL_CONTROLLER_BUTTON_GUIDE
    (Button.new ⟨320, 520, 80, 40⟩ "MENU" gray yellow)
  let darkGray : Color := ⟨80, 80, 80, 255⟩
  let lightGray : Color := ⟨150, 150, 150, 255⟩
  let v := v.assignStick 0 (AnalogStick.new 160 520 80 30 "LEFT STICK" darkGray lightGray)
  let v := v.assignStick 1 (AnalogStick.new 1120 520 80 30 "RIGHT STICK" darkGray lightGray)
  v

/-- The first two statements of `handleStickMovement`: the raw axis value is
divided by `32767.0f`. -/
def normalizeAxis (raw : Int) : ℚ := fdiv (intToFloat raw) (floatLit 32767)

/-- The value `handleStickMovement` works with after its deadzone test
`std::abs(value) < 0.1f`. -/
def deadzoneValue (raw : Int) : ℚ :=
  if |normalizeAxis raw| < floatLit (1 / 10) then floatLit 0 else normalizeAxis raw

/-- Method `ControllerVisualizer::handleStickMovement`. -/
def handleStickMovement (v : ControllerVisualizer) (axis : Nat) (raw : Int) :
    ControllerVisualizer :=
  let value := deadzoneValue raw
  if axis = SDL_CONTROLLER_AXIS_LEFTX then v.assignStick 0 ((v.sticks 0).setXValue value)
  else if axis = SDL_CONTROLLER_AXIS_LEFTY then v.assignStick 0 ((v.sticks 0).setYValue value)
  else if axis = SDL_CONTROLLER_AXIS_RIGHTX then v.assignStick 1 ((v.sticks 1).setXValue value)
  else if axis = SDL_CONTROLLER_AXIS_RIGHTY then v.assignStick 1 ((v.sticks 1).setYValue value)
  else if axis = SDL_CONTROLLER_AXIS_TRIGGERLEFT then
    v.pressButton BUTTON_L2 (decide (floatLit (1 / 2) < value))
  else if axis = SDL_CONTROLLER_AXIS_TRIGGERRIGHT then
    v.pressButton BUTTON_R2 (decide (floatLit (1 / 2) < value))
  else v

/-- Method `ControllerVisualizer::handleEvent`. -/
def handleEvent (v : ControllerVisualizer) : SDL_Event → ControllerVisualizer
  | .quit => { v with running := false }
  | .controllerButtonDown button =>
    if h : button < MAX_BUTTON_INDEX then
      let v := v.pressButton ⟨button, h⟩ true
      if (v.buttons SDL_CONTROLLER_BUTTON_START).isPressed &&
          (v.buttons SDL_CONTROLLER_BUTTON_BACK).isPressed then
        { v with running := false }
      else v
    else v
  | .controllerButtonUp button =>
    if h : button < MAX_BUTTON_INDEX then v.pressButton ⟨button, h⟩ false else v
  | .controllerAxisMotion axis value => handleStickMovement v axis value
  | .other => v

/-- The events of a run are handled one after the other (`run` polls them and
calls `handleEvent` on each). -/
def handleEvents (v : ControllerVisualizer) (events : List SDL_Event) : ControllerVisualizer :=
  events.foldl handleEvent v

/-- The state in which `initialize` leaves the event-handling fields when it
succeeds: `setupLayout()` followed by `running = true`. -/
def initializedState (v : ControllerVisualizer) : ControllerVisualizer :=
  { setupLayout v with running := true }

/-! ## Circle rasterisation -/

/-- The loop of `DrawCircle`.  Each iteration passes eight points to
`SDL_RenderDrawPoint`, in the order of the source; the result is the list of
all points drawn.  The first argument bounds the number of iterations; `none`
means the bound was too small. -/
def DrawCircleLoop (x y radius : Int) : Nat → Int → Int → Int → Option (List SDL_Point)
  | 0, offsetx, offsety, _ => if offsety ≥ offsetx then none else some []
  | fuel + 1, offsetx, offsety, d =>
    if offsety ≥ offsetx then
      let points : List SDL_Point :=
        [⟨iadd x offsetx, iadd y offsety⟩, ⟨iadd x offsety, iadd y offsetx⟩,
         ⟨isub x offsetx, iadd y offsety⟩, ⟨isub x offsety, iadd y offsetx⟩,
         ⟨iadd x offsetx, isub y offsety⟩, ⟨iadd x offsety, isub y offsetx⟩,
         ⟨isub x offsetx, isub y offsety⟩, ⟨isub x offsety, isub y offsetx⟩]
      let rest :=
        if d ≥ imul 2 offsetx then
          DrawCircleLoop x y radius fuel (iadd offsetx 1) offsety
            (isub d (iadd (imul 2 offsetx) 1))
        else if d < imul 2 (isub radius offsety) then
          DrawCircleLoop x y radius fuel offsetx (isub offsety 1)
            (iadd d (isub (imul 2 offsety) 1))
        else
          DrawCircleLoop x y radius fuel (iadd offsetx 1) (isub offsety 1)
            (iadd d (imul 2 (isub (isub offsety offsetx) 1)))
      rest.map (fun more => points ++ more)
    else some []

/-- Function `DrawCircle` (circle outline): `offsetx = 0`, `offsety = radius`,
`d = radius - 1`.  As long as nothing overflows every iteration lowers
`offsety - offsetx`, so `radius + 1` iterations are enough. -/
def DrawCircle (x y radius : Int) : Option (List SDL_Point) :=
  DrawCircleLoop x y radius (radius + 1).toNat 0 radius (isub radius 1)

/-- The arguments of one call `SDL_RenderDrawLine(renderer, x1, y1, x2, y2)`. -/
structure Line where
  x1 : Int
  y1 : Int
  x2 : Int
  y2 : Int
  deriving DecidableEq, Repr

/-- The pixels of a horizontal line: every integer `x` between the two
endpoints, inclusive, on the line's row. -/
def Line.covers (l : Line) (p : SDL_Point) : Prop :=
  l.y1 = l.y2 ∧ p.y = l.y1 ∧ min l.x1 l.x2 ≤ p.x ∧ p.x ≤ max l.x1 l.x2

instance (l : Line) (p : SDL_Point) : Decidable (l.covers p) := by
  unfold Line.covers; infer_instance

/-- The loop of `DrawFilledCircle`: four calls of `SDL_RenderDrawLine` per
iteration, in the order of the source. -/
def DrawFilledCircleLoop (x y radius : Int) : Nat → Int → Int → Int → Option (List Line)
  | 0, offsetx, offsety, _ => if offsety ≥ offsetx then none else some []
  | fuel + 1, offsetx, offsety, d =>
    if offsety ≥ offsetx then
      let lines : List Line :=
        [⟨isub x offsety, iadd y offsetx, iadd x offsety, iadd y offsetx⟩,
         ⟨isub x offsetx, iadd y offsety, iadd x offsetx, iadd y offsety⟩,
         ⟨isub x offsetx, isub y offsety, iadd x offsetx, isub y offsety⟩,
         ⟨isub x offsety, isub y offsetx, iadd x offsety, isub y offsetx⟩]
      let rest :=
        if d ≥ imul 2 offsetx then
          DrawFilledCircleLoop x y radius fuel (iadd offsetx 1) offsety
            (isub d (iadd (imul 2 offsetx) 1))
        else if d < imul 2 (isub radius offsety) then
          DrawFilledCircleLoop x y radius fuel offsetx (isub offsety 1)
            (iadd d (isub (imul 2 offsety) 1))
        else
          DrawFilledCircleLoop x y radius fuel (iadd offsetx 1) (isub offsety 1)
            (iadd d (imul 2 (isub (isub offsety offsetx) 1)))
      rest.map (fun more => lines ++ more)
    else some []

/-- Function `DrawFilledCircle`. -/
def DrawFilledCircle (x y radius : Int) : Option (List Line) :=
  DrawFilledCircleLoop x y radius (radius + 1).toNat 0 radius (isub radius 1)

/-- The loop variables `offsetx`, `offsety` and `d` at the start of an
iteration of the loop that `DrawCircle` and `DrawFilledCircle` share. -/
structure CircleState where
  offsetx : Int
  offsety : Int
  d : Int
  deriving DecidableEq, Repr

/-- The loop of `DrawCircle` and `DrawFilledCircle` with its drawing calls
left out: the list of the loop variables at the start of every iteration. -/
def circleLoopStates (radius : Int) : Nat → Int → Int → Int → Option (List CircleState)
  | 0, offsetx, offsety, _ => if offsety ≥ offsetx then none else some []
  | fuel + 1, offsetx, offsety, d =>
    if offsety ≥ offsetx then
      let rest :=
        if d ≥ imul 2 offsetx then
          circleLoopStates radius fuel (iadd offsetx 1) offsety
            (isub d (iadd (imul 2 offsetx) 1))
        else if d < imul 2 (isub radius offsety) then
          circleLoopStates radius fuel offsetx (isub offsety 1)
            (iadd d (isub (imul 2 offsety) 1))
        else
          circleLoopStates radius fuel (iadd offsetx 1) (isub offsety 1)
            (iadd d (imul 2 (isub (isub offsety offsetx) 1)))
      rest.map (fun more => ⟨offsetx, offsety, d⟩ :: more)
    else some []

/-- The eight points one iteration of `DrawCircle` draws. -/
def CircleState.points (x y : Int) (s : CircleState) : List SDL_Point :=
  [⟨iadd x s.offsetx, iadd y s.offsety⟩, ⟨iadd x s.offsety, iadd y s.offsetx⟩,
   ⟨isub x s.offsetx, iadd y s.offsety⟩, ⟨isub x s.offsety, iadd y s.offsetx⟩,
   ⟨iadd x s.offsetx, isub y s.offsety⟩, ⟨iadd x s.offsety, isub y s.offsetx⟩,
   ⟨isub x s.offsetx, isub y s.offsety⟩, ⟨isub x s.offsety, isub y s.offsetx⟩]

/-- The four lines one iteration of `DrawFilledCircle` draws. -/
def CircleState.lines (x y : Int) (s : CircleState) : List Line :=
  [⟨isub x s.offsety, iadd y s.offsetx, iadd x s.offsety, iadd y s.offsetx⟩,
   ⟨isub x s.offsetx, iadd y s.offsety, iadd x s.offsetx, iadd y s.offsety⟩,
   ⟨isub x s.offsetx, isub y s.offsety, iadd x s.offsetx, isub y s.offsety⟩,
   ⟨isub x s.offsety, isub y s.offsetx, iadd x s.offsety, isub y s.offsetx⟩]

/-! ## Acquisition and release of the SDL handles -/

/-- What `initialize` acquires and `cleanup` releases. -/
inductive Resource where
  | sdl
  | ttf
  | window
  | renderer
  | font
  | controller
  deriving DecidableEq, Repr

/-- The five calls of `initialize` whose failure makes it return `false`. -/
inductive InitStep where
  | SDL_Init
  | TTF_Init
  | SDL_CreateWindow
  | SDL_CreateRenderer
  | TTF_OpenFont
  deriving DecidableEq, Repr

/-- One entry of the trace of a run: a call that acquired a resource, or a
call of the function that releases it (`SDL_Quit`, `TTF_Quit`,
`SDL_DestroyWindow`, `SDL_DestroyRenderer`, `TTF_CloseFont`,
`SDL_GameControllerClose`). -/
inductive HandleOp where
  | acquire (r : Resource)
  | release (r : Resource)
  deriving DecidableEq, Repr

/-- Method `ControllerVisualizer::initialize`, as a trace and its return value.
`failAt` names the call that fails, if any; `controllerFound` tells whether
`initController` opens a controller. -/
def initializeVisualizer (failAt : Option InitStep) (controllerFound : Bool) :
    List HandleOp × Bool :=
  if failAt = some .SDL_Init then ([], false)
  else if failAt = some .TTF_Init then
    ([.acquire .sdl, .release .sdl], false)
  else if failAt = some .SDL_CreateWindow then
    ([.acquire .sdl, .acquire .ttf, .release .ttf, .release .sdl], false)
  else if failAt = some .SDL_CreateRenderer then
    ([.acquire .sdl, .acquire .ttf, .acquire .window,
      .release .window, .release .ttf, .release .sdl], false)
  else if failAt = some .TTF_OpenFont then
    ([.acquire .sdl, .acquire .ttf, .acquire .window, .acquire .renderer,
      .release .renderer, .release .window, .release .ttf, .release .sdl], false)
  else
    ([.acquire .sdl, .acquire .ttf, .acquire .window, .acquire .renderer, .acquire .font]
      ++ (if controllerFound then [.acquire .controller] else []), true)

/-- Method `ControllerVisualizer::cleanup`: six release calls, unconditionally. -/
def cleanup : List HandleOp :=
  [.release .controller, .release .font, .release .renderer, .release .window,
   .release .ttf, .release .sdl]

/-- The trace of `main`: `initialize()`, then `run()` when it succeeded (the
event loop acquires and releases none of these handles), then the destructor
of `visualizer`, which calls `cleanup()` on every path. -/
def mainTrace (failAt : Option InitStep) (controllerFound : Bool) : List HandleOp :=
  (initializeVisualizer failAt controllerFound).1 ++ cleanup

/-- How often a trace acquires a resource. -/
def acquireCount (t : List HandleOp) (r : Resource) : Nat := t.count (.acquire r)

/-- How often a trace releases a resource. -/
def releaseCount (t : List HandleOp) (r : Resource) : Nat := t.count (.release r)

/-! ## Vocabulary of the statements -/

/-- What an event says about button `b`: `some true` for a button-down event
of `b`, `some false` for a button-up event of `b`, `none` for every other
event. -/
def buttonEventFor (b : Nat) : SDL_Event → Option Bool
  | .controllerButtonDown button => if button = b then some true else none
  | .controllerButtonUp button => if button = b then some false else none
  | _ => none

/-- The last button event for `b` in a sequence of events, if there is one. -/
def lastButtonEvent (b : Nat) : List SDL_Event → Option Bool
  | [] => none
  | e :: es =>
    match lastButtonEvent b es with
    | some r => some r
    | none => buttonEventFor b e

/-- The exit invariant: START and SELECT both pressed implies not running. -/
def ExitInv (v : ControllerVisualizer) : Prop :=
  (v.buttons SDL_CONTROLLER_BUTTON_START).pressed = true →
    (v.buttons SDL_CONTROLLER_BUTTON_BACK).pressed = true → v.running = false

/-- A concrete visualizer state used to instantiate the theorems. -/
def sampleVisualizer : ControllerVisualizer :=
  { buttons := fun _ => Button.new ⟨0, 0, 0, 0⟩ "" ⟨100, 100, 100, 255⟩ ⟨255, 255, 0, 255⟩,
    sticks := fun _ => AnalogStick.new 160 520 80 30 "" ⟨80, 80, 80, 255⟩ ⟨150, 150, 150, 255⟩,
    running := false }

/-- The knob position of a stick is defined and lies in the bounding square of
its base. -/
def knobWithinBase (st : AnalogStick) : Prop :=
  ∃ p : SDL_Point, st.getStickPosition = some p ∧
    |p.x - st.centerX| ≤ st.radius - st.stickRadius ∧
    |p.y - st.centerY| ≤ st.radius - st.stickRadius

/-- A visualizer whose sticks have base radius 16777219 and knob radius 0. -/
def wideStickVisualizer : ControllerVisualizer :=
  { buttons := fun _ => Button.new ⟨0, 0, 0, 0⟩ "" ⟨100, 100, 100, 255⟩ ⟨255, 255, 0, 255⟩,
    sticks := fun _ => AnalogStick.new 0 0 16777219 0 "" ⟨80, 80, 80, 255⟩ ⟨150, 150, 150, 255⟩,
    running := true }

/-- A visualizer whose sticks have the radii of the layout (80 and 30) and
their centre at the largest `int`. -/
def edgeStickVisualizer : ControllerVisualizer :=
  { buttons := fun _ => Button.new ⟨0, 0, 0, 0⟩ "" ⟨100, 100, 100, 255⟩ ⟨255, 255, 0, 255⟩,
    sticks := fun _ =>
      AnalogStick.new 2147483647 0 80 30 "" ⟨80, 80, 80, 255⟩ ⟨150, 150, 150, 255⟩,
    running := true }

/-- The circle loop over the mathematical integers, without the reduction
modulo `2^32`: the reference the 32-bit loop is compared with. -/
def idealCircleStates (radius : Int) : Nat → Int → Int → Int → Option (List CircleState)
  | 0, offsetx, offsety, _ => if offsety ≥ offsetx then none else some []
  | fuel + 1, offsetx, offsety, d =>
    if offsety ≥ offsetx then
      let rest :=
        if d ≥ 2 * offsetx then
          idealCircleStates radius fuel (offsetx + 1) offsety (d - (2 * offsetx + 1))
        else if d < 2 * (radius - offsety) then
          idealCircleStates radius fuel offsetx (offsety - 1) (d + (2 * offsety - 1))
        else
          idealCircleStates radius fuel (offsetx + 1) (offsety - 1)
            (d + 2 * (offsety - offsetx - 1))
      rest.map (fun more => ⟨offsetx, offsety, d⟩ :: more)
    else some []

/-- The loop invariant of the circle loop at the start of an iteration: the
loop variables are ordered, and `d` measures how far the current point is from
the outer edge of the ring of radius `radius`. -/
def CircleInv (radius : Int) (s : CircleState) : Prop :=
  0 ≤ s.offsetx ∧ s.offsetx ≤ s.offsety ∧ s.offsety ≤ radius ∧
  s.d = radius * radius + radius - 1 - (s.offsetx * s.offsetx + s.offsety * s.offsety) ∧
  -1 ≤ s.d ∧ s.d ≤ 2 * radius - 2

/-- The axis that reports the x direction of stick `i` (0 left, 1 right). -/
def stickXAxis (i : Fin 2) : Nat :=
  if i = 0 then SDL_CONTROLLER_AXIS_LEFTX else SDL_CONTROLLER_AXIS_RIGHTX

/-- The axis that reports the y direction of stick `i` (0 left, 1 right). -/
def stickYAxis (i : Fin 2) : Nat :=
  if i = 0 then SDL_CONTROLLER_AXIS_LEFTY else SDL_CONTROLLER_AXIS_RIGHTY

/-! ## Event handling -/

@[simp] theorem setPressed_pressed (b : Button) (p : Bool) : (b.setPressed p).pressed = p := rfl

@[simp] theorem pressButton_buttons_self (v : ControllerVisualizer) (i : Fin MAX_BUTTON_INDEX) (p : Bool) :
    (v.pressButton i p).buttons i = (v.buttons i).setPressed p := by
  simp [ControllerVisualizer.pressButton]

theorem pressButton_buttons_ne (v : ControllerVisualizer) (i j : Fin MAX_BUTTON_INDEX) (p : Bool)
    (h : j ≠ i) : (v.pressButton i p).buttons j = v.buttons j := by
  simp [ControllerVisualizer.pressButton, Function.update_noteq h]

@[simp] theorem pressButton_running (v : ControllerVisualizer) (i : Fin MAX_BUTTON_INDEX) (p : Bool) :
    (v.pressButton i p).running = v.running := rfl

@[simp] theorem pressButton_sticks (v : ControllerVisualizer) (i : Fin MAX_BUTTON_INDEX) (p : Bool) :
    (v.pressButton i p).sticks = v.sticks := rfl

@[simp] theorem assignStick_buttons (v : ControllerVisualizer) (i : Fin 2) (st : AnalogStick) :
    (v.assignStick i st).buttons = v.buttons := rfl

@[simp] theorem assignStick_running (v : ControllerVisualizer) (i : Fin 2) (st : AnalogStick) :
    (v.assignStick i st).running = v.running := rfl

/-- Pressing changes the `pressed` flag of a button and nothing else. -/
theorem pressButton_pressed (v : ControllerVisualizer) (i j : Fin MAX_BUTTON_INDEX) (p : Bool) :
    ((v.pressButton i p).buttons j).pressed = if j = i then p else (v.buttons j).pressed := by
  by_cases h : j = i
  · subst h; simp [Button.setPressed]
  · simp [pressButton_buttons_ne v i j p h, h]

theorem pressButton_colors (v : ControllerVisualizer) (i j : Fin MAX_BUTTON_INDEX) (p : Bool) :
    ((v.pressButton i p).buttons j).normalColor = (v.buttons j).normalColor ∧
    ((v.pressButton i p).buttons j).pressedColor = (v.buttons j).pressedColor := by
  by_cases h : j = i
  · subst h; simp [Button.setPressed]
  · simp [pressButton_buttons_ne v i j p h]

/-- The handler `handleStickMovement` leaves `running` alone. -/
theorem handleStickMovement_running (v : ControllerVisualizer) (axis : Nat) (raw : Int) :
    (handleStickMovement v axis raw).running = v.running := by
  unfold handleStickMovement
  simp only
  split_ifs <;> simp

/-- The handler `handleStickMovement` writes no button other than L2 and R2. -/
theorem handleStickMovement_buttons (v : ControllerVisualizer) (axis : Nat) (raw : Int)
    (j : Fin MAX_BUTTON_INDEX) (h16 : j ≠ BUTTON_L2) (h17 : j ≠ BUTTON_R2) :
    (handleStickMovement v axis raw).buttons j = v.buttons j := by
  unfold handleStickMovement
  simp only
  split_ifs <;> first | rfl | simp [pressButton_buttons_ne, h16, h17]

/-- No event changes the colours of a button. -/
theorem handleEvent_colors (v : ControllerVisualizer) (e : SDL_Event) (j : Fin MAX_BUTTON_INDEX) :
    ((handleEvent v e).buttons j).normalColor = (v.buttons j).normalColor ∧
    ((handleEvent v e).buttons j).pressedColor = (v.buttons j).pressedColor := by
  cases e with
  | quit => simp [handleEvent]
  | controllerButtonDown button =>
    simp only [handleEvent]
    split_ifs <;> simp [pressButton_colors]
  | controllerButtonUp button =>
    simp only [handleEvent]
    split_ifs <;> simp [pressButton_colors]
  | controllerAxisMotion axis value =>
    simp only [handleEvent, handleStickMovement]
    split_ifs <;> simp [pressButton_colors]
  | other => simp [handleEvent]

theorem handleEvents_colors (v : ControllerVisualizer) (events : List SDL_Event) (j : Fin MAX_BUTTON_INDEX) :
    ((handleEvents v events).buttons j).normalColor = (v.buttons j).normalColor ∧
    ((handleEvents v events).buttons j).pressedColor = (v.buttons j).pressedColor := by
  induction events generalizing v with
  | nil => simp [handleEvents]
  | cons e es ih =>
    have h := ih (handleEvent v e)
    have h2 := handleEvent_colors v e j
    simp only [handleEvents, List.foldl_cons] at h ⊢
    exact ⟨h.1.trans h2.1, h.2.trans h2.2⟩

/-- One event: the `pressed` flag of a button below 16 follows the event when
it is a button event for that button and is kept otherwise. -/
theorem handleEvent_pressed (v : ControllerVisualizer) (e : SDL_Event) (j : Fin MAX_BUTTON_INDEX)
    (hj : j.val < 16) :
    ((handleEvent v e).buttons j).pressed =
      (buttonEventFor j.val e).getD (v.buttons j).pressed := by
  have h16 : j ≠ BUTTON_L2 := by intro h; rw [h] at hj; exact absurd hj (by decide)
  have h17 : j ≠ BUTTON_R2 := by intro h; rw [h] at hj; exact absurd hj (by decide)
  cases e with
  | quit => simp [handleEvent, buttonEventFor]
  | controllerButtonDown button =>
    simp only [handleEvent, buttonEventFor]
    by_cases hb : button < 18
    · have hji : (j = ⟨button, hb⟩) ↔ button = j.val := by
        constructor
        · intro h; rw [h]
        · intro h; exact Fin.ext h.symm
      simp only [hb, dite_true]
      split_ifs <;> simp_all [pressButton_pressed]
    · have : button ≠ j.val := by intro h; exact hb (h ▸ j.isLt)
      simp [hb, this]
  | controllerButtonUp button =>
    simp only [handleEvent, buttonEventFor]
    by_cases hb : button < 18
    · have hji : (j = ⟨button, hb⟩) ↔ button = j.val := by
        constructor
        · intro h; rw [h]
        · intro h; exact Fin.ext h.symm
      simp only [hb, dite_true]
      split_ifs <;> simp_all [pressButton_pressed]
    · have : button ≠ j.val := by intro h; exact hb (h ▸ j.isLt)
      simp [hb, this]
  | controllerAxisMotion axis value =>
    simp [handleEvent, buttonEventFor, handleStickMovement_buttons v axis value j h16 h17]
  | other => simp [handleEvent, buttonEventFor]

theorem handleEvents_pressed (v : ControllerVisualizer) (events : List SDL_Event) (j : Fin MAX_BUTTON_INDEX)
    (hj : j.val < 16) :
    ((handleEvents v events).buttons j).pressed =
      (lastButtonEvent j.val events).getD (v.buttons j).pressed := by
  induction events generalizing v with
  | nil => simp [handleEvents, lastButtonEvent]
  | cons e es ih =>
    have h := ih (handleEvent v e)
    simp only [handleEvents, List.foldl_cons] at h ⊢
    rw [h, lastButtonEvent]
    cases hl : lastButtonEvent j.val es with
    | some r => simp
    | none => simp [handleEvent_pressed v e j hj]

theorem handleEvent_exitInv (v : ControllerVisualizer) (e : SDL_Event) (h : ExitInv v) :
    ExitInv (handleEvent v e) := by
  unfold ExitInv at h ⊢
  cases e with
  | quit => intro _ _; simp [handleEvent]
  | controllerButtonDown button =>
    simp only [handleEvent]
    by_cases hb : button < 18
    · simp only [hb, dite_true, Button.isPressed]
      split_ifs with hc
      · intro _ _; rfl
      · intro h6 h4
        exact absurd (by simp [h6, h4]) hc
    · simpa [hb] using h
  | controllerButtonUp button =>
    simp only [handleEvent]
    by_cases hb : button < 18
    · simp only [hb, dite_true, pressButton_pressed, pressButton_running]
      intro h6 h4
      split_ifs at h6 h4
      all_goals simp_all
    · simpa [hb] using h
  | controllerAxisMotion axis value =>
    simp only [handleEvent, handleStickMovement_running]
    rw [handleStickMovement_buttons v axis value 6 (by decide) (by decide),
      handleStickMovement_buttons v axis value 4 (by decide) (by decide)]
    exact h
  | other => simpa [handleEvent] using h

theorem handleEvents_exitInv (v : ControllerVisualizer) (events : List SDL_Event)
    (h : ExitInv v) : ExitInv (handleEvents v events) := by
  induction events generalizing v with
  | nil => simpa [handleEvents] using h
  | cons e es ih =>
    have := ih (handleEvent v e) (handleEvent_exitInv v e h)
    simpa [handleEvents] using this

theorem initializedState_released (v : ControllerVisualizer) :
    ((initializedState v).buttons SDL_CONTROLLER_BUTTON_START).pressed = false ∧
    ((initializedState v).buttons SDL_CONTROLLER_BUTTON_BACK).pressed = false ∧
    (initializedState v).running = true :=
  ⟨rfl, rfl, rfl⟩

/-- C1. Press START + SELECT to exit: after any sequence of events handled from
the state left by `setupLayout` with `running = true`, if START (index 6) and
SELECT (index 4) are both pressed then `running` is false. -/
theorem start_select_exits (v0 : ControllerVisualizer) (events : List SDL_Event)
    (hstart : ((handleEvents (initializedState v0) events).buttons
      SDL_CONTROLLER_BUTTON_START).isPressed = true)
    (hselect : ((handleEvents (initializedState v0) events).buttons
      SDL_CONTROLLER_BUTTON_BACK).isPressed = true) :
    (handleEvents (initializedState v0) events).running = false := by
  have hinit : ExitInv (initializedState v0) := by
    intro h6 _
    rw [(initializedState_released v0).1] at h6
    exact absurd h6 (by decide)
  exact handleEvents_exitInv _ events hinit hstart hselect

theorem start_select_exits_witness :
    (handleEvents (initializedState sampleVisualizer)
      [.controllerButtonDown 4, .controllerAxisMotion 0 1200, .controllerButtonDown 6]).running
      = false :=
  start_select_exits sampleVisualizer
    [.controllerButtonDown 4, .controllerAxisMotion 0 1200, .controllerButtonDown 6]
    (by decide) (by decide)

/-- C2. On-screen buttons highlight as the physical button is pressed: for a
button `b < 16` and a sequence of events whose last button event for `b` is
`down`, after the sequence `b` is pressed exactly when `down` is a button-down,
`getCurrentColor` is the pressed colour then and the normal colour otherwise,
and an event that is not a button event for `b` keeps `b`'s pressed flag. -/
theorem button_highlight_follows_last_event (v : ControllerVisualizer) (b : Fin MAX_BUTTON_INDEX)
    (events : List SDL_Event) (down : Bool) (hb : b.val < 16)
    (hlast : lastButtonEvent b.val events = some down) :
    ((handleEvents v events).buttons b).isPressed = down ∧
    ((handleEvents v events).buttons b).getCurrentColor =
      (if down then (v.buttons b).pressedColor else (v.buttons b).normalColor) ∧
    (∀ (w : ControllerVisualizer) (e : SDL_Event), buttonEventFor b.val e = none →
      ((handleEvent w e).buttons b).isPressed = (w.buttons b).isPressed) := by
  have hp := handleEvents_pressed v events b hb
  rw [hlast] at hp
  simp only [Option.getD_some] at hp
  have hc := handleEvents_colors v events b
  refine ⟨hp, ?_, ?_⟩
  · simp [Button.getCurrentColor, hp, hc.1, hc.2]
  · intro w e he
    have := handleEvent_pressed w e b hb
    rw [he] at this
    simpa [Button.isPressed] using this

theorem button_highlight_follows_last_event_witness :
    ((handleEvents sampleVisualizer
        [.controllerButtonDown 3, .controllerButtonUp 3, .controllerButtonDown 3,
         .controllerButtonUp 5]).buttons 3).isPressed = true ∧
    ((handleEvents sampleVisualizer
        [.controllerButtonDown 3, .controllerButtonUp 3, .controllerButtonDown 3,
         .controllerButtonUp 5]).buttons 3).getCurrentColor =
      (if true then (sampleVisualizer.buttons 3).pressedColor
        else (sampleVisualizer.buttons 3).normalColor) ∧
    (∀ (w : ControllerVisualizer) (e : SDL_Event), buttonEventFor (3 : Fin MAX_BUTTON_INDEX).val e = none →
      ((handleEvent w e).buttons 3).isPressed = (w.buttons 3).isPressed) :=
  button_highlight_follows_last_event sampleVisualizer 3
    [.controllerButtonDown 3, .controllerButtonUp 3, .controllerButtonDown 3,
     .controllerButtonUp 5] true (by decide) (by decide)

/-! ## binary32 rounding -/

theorem roundNearestEven_error (t : ℚ) : |(roundNearestEven t : ℚ) - t| ≤ 1 / 2 := by
  have h1 := Int.floor_le t
  have h2 := Int.lt_floor_add_one t
  unfold roundNearestEven
  rw [abs_le]
  split_ifs <;> push_cast <;> constructor <;> linarith

theorem roundNearestEven_intCast (k : ℤ) : roundNearestEven (k : ℚ) = k := by
  unfold roundNearestEven
  simp

theorem roundF32_zero : roundF32 0 = 0 := by
  simp [roundF32]

theorem f32Exponent_le (q : ℚ) (E : ℤ) (hq0 : q ≠ 0) (hE : -126 ≤ E)
    (hq : |q| < 2 ^ (E + 1)) : f32Exponent q ≤ E := by
  have hpos : 0 < |q| := abs_pos.mpr hq0
  have h : Int.log 2 |q| < E + 1 := by
    rw [← Int.lt_zpow_iff_log_lt (by norm_num) hpos]
    exact_mod_cast hq
  unfold f32Exponent
  exact max_le (by omega) hE

theorem f32Exponent_normal (q : ℚ) (hq : (2 : ℚ) ^ (-126 : ℤ) ≤ |q|) :
    (2 : ℚ) ^ f32Exponent q ≤ |q| := by
  have hpos : 0 < |q| := lt_of_lt_of_le (by positivity) hq
  have h : (-126 : ℤ) ≤ Int.log 2 |q| := by
    rw [← Int.zpow_le_iff_le_log (by norm_num) hpos]
    exact_mod_cast hq
  unfold f32Exponent
  rw [max_eq_left h]
  have := Int.zpow_log_le_self (b := 2) (by norm_num) hpos
  exact_mod_cast this

/-- Rounding moves a number by at most half a unit in the last place. -/
theorem roundF32_error (q : ℚ) :
    |roundF32 q - q| ≤ 2 ^ (f32Exponent q - 23) / 2 := by
  by_cases hq0 : q = 0
  · subst hq0
    rw [roundF32_zero]
    simp
    positivity
  · have hu : (0 : ℚ) < 2 ^ (f32Exponent q - 23) := by positivity
    have h := roundNearestEven_error (q / 2 ^ (f32Exponent q - 23))
    have e : roundF32 q - q =
        ((roundNearestEven (q / 2 ^ (f32Exponent q - 23)) : ℚ) - q / 2 ^ (f32Exponent q - 23))
          * 2 ^ (f32Exponent q - 23) := by
      rw [roundF32, if_neg hq0]
      field_simp
    rw [e, abs_mul, abs_of_pos hu]
    calc _ ≤ 1 / 2 * 2 ^ (f32Exponent q - 23) := mul_le_mul_of_nonneg_right h hu.le
      _ = 2 ^ (f32Exponent q - 23) / 2 := by ring

/-- Absolute error of rounding a number of magnitude below `2 ^ (E + 1)`. -/
theorem roundF32_abs_error (q : ℚ) (E : ℤ) (hE : -126 ≤ E) (hq : |q| < 2 ^ (E + 1)) :
    |roundF32 q - q| ≤ 2 ^ (E - 24) := by
  by_cases hq0 : q = 0
  · subst hq0
    rw [roundF32_zero]
    simp
    positivity
  · have h := roundF32_error q
    have hle := f32Exponent_le q E hq0 hE hq
    have h2 : (2 : ℚ) ^ (f32Exponent q - 23) ≤ 2 ^ (E - 23) :=
      zpow_le_zpow_right₀ (by norm_num) (by omega)
    have h3 : (2 : ℚ) ^ (E - 23) = 2 ^ (E - 24) * 2 := by
      rw [← zpow_add_one₀ (by norm_num)]
      congr 1
      ring
    linarith

/-- Relative error of rounding a number in the normal range. -/
theorem roundF32_rel_error (q : ℚ) (hq : (2 : ℚ) ^ (-126 : ℤ) ≤ |q|) :
    |roundF32 q - q| ≤ |q| / 2 ^ 24 := by
  have h := roundF32_error q
  have hn := f32Exponent_normal q hq
  have h3 : (2 : ℚ) ^ (f32Exponent q - 23) = 2 ^ f32Exponent q / 2 ^ 23 := by
    rw [zpow_sub₀ (by norm_num)]
    norm_num
  rw [h3] at h
  have : (2 : ℚ) ^ f32Exponent q / 2 ^ 23 / 2 ≤ |q| / 2 ^ 24 := by
    rw [div_div, div_le_div_iff₀ (by positivity) (by positivity)]
    nlinarith
  linarith

/-- Evaluating `roundF32` once the binade and the rounded significand are known. -/
theorem roundF32_eq_of (q : ℚ) (E m : ℤ) (hlo : (2 : ℚ) ^ E ≤ |q|) (hhi : |q| < 2 ^ (E + 1))
    (hE : -126 ≤ E) (hm : roundNearestEven (q / 2 ^ (E - 23)) = m) :
    roundF32 q = (m : ℚ) * 2 ^ (E - 23) := by
  have hpos : 0 < |q| := lt_of_lt_of_le (by positivity) hlo
  have hq0 : q ≠ 0 := abs_pos.mp hpos
  have h1 : E ≤ Int.log 2 |q| := by
    rw [← Int.zpow_le_iff_le_log (by norm_num) hpos]
    exact_mod_cast hlo
  have h2 : Int.log 2 |q| < E + 1 := by
    rw [← Int.lt_zpow_iff_log_lt (by norm_num) hpos]
    exact_mod_cast hhi
  have he : f32Exponent q = E := by
    unfold f32Exponent
    rw [max_eq_left (by omega)]
    omega
  rw [roundF32, if_neg hq0, he, hm]

/-- Integers of magnitude below `2 ^ 24` are binary32 numbers. -/
theorem roundF32_intCast (n : ℤ) (h : |n| < 2 ^ 24) : roundF32 (n : ℚ) = n := by
  by_cases hn : n = 0
  · subst hn
    simp [roundF32_zero]
  · have hq0 : (n : ℚ) ≠ 0 := by exact_mod_cast hn
    have hpos : 0 < |(n : ℚ)| := abs_pos.mpr hq0
    have hge : (1 : ℚ) ≤ |(n : ℚ)| := by
      have : 1 ≤ |n| := Int.one_le_abs hn
      exact_mod_cast this
    have hlt : |(n : ℚ)| < 2 ^ 24 := by exact_mod_cast h
    have h1 : (0 : ℤ) ≤ Int.log 2 |(n : ℚ)| := by
      rw [← Int.zpow_le_iff_le_log (by norm_num) hpos]
      simpa using hge
    have h2 : Int.log 2 |(n : ℚ)| < 24 := by
      rw [← Int.lt_zpow_iff_log_lt (by norm_num) hpos]
      exact_mod_cast hlt
    have he : f32Exponent (n : ℚ) = Int.log 2 |(n : ℚ)| := by
      unfold f32Exponent
      exact max_eq_left (by omega)
    obtain ⟨k, hk⟩ : ∃ k : ℕ, Int.log 2 |(n : ℚ)| - 23 = -(k : ℤ) :=
      ⟨(23 - Int.log 2 |(n : ℚ)|).toNat, by omega⟩
    rw [roundF32, if_neg hq0, he, hk, zpow_neg, zpow_natCast, div_inv_eq_mul]
    have : (n : ℚ) * 2 ^ k = ((n * 2 ^ k : ℤ) : ℚ) := by push_cast; ring
    rw [this, roundNearestEven_intCast]
    push_cast
    field_simp

theorem floatLit_zero : floatLit 0 = 0 := roundF32_zero

theorem floatLit_32767 : floatLit 32767 = 32767 := by
  have := roundF32_intCast 32767 (by norm_num)
  simpa [floatLit] using this

theorem floatLit_half : floatLit (1 / 2) = 1 / 2 := by
  unfold floatLit
  rw [roundF32_eq_of (1 / 2) (-1) (2 ^ 23) (by norm_num [abs_of_pos]) (by norm_num [abs_of_pos])
    (by norm_num) (by
      have : (1 / 2 : ℚ) / 2 ^ ((-1 : ℤ) - 23) = ((2 ^ 23 : ℤ) : ℚ) := by norm_num [zpow_neg]
      rw [this, roundNearestEven_intCast])]
  norm_num [zpow_neg]

/-- The literal `0.1f`. -/
theorem floatLit_tenth : floatLit (1 / 10) = 13421773 / 134217728 := by
  unfold floatLit
  have hm : roundNearestEven ((1 / 10 : ℚ) / 2 ^ ((-4 : ℤ) - 23)) = 13421773 := by
    have ht : (1 / 10 : ℚ) / 2 ^ ((-4 : ℤ) - 23) = 67108864 / 5 := by norm_num [zpow_neg]
    have hf : ⌊(67108864 / 5 : ℚ)⌋ = 13421772 := by
      rw [Int.floor_eq_iff]; norm_num
    rw [ht]
    unfold roundNearestEven
    rw [hf]
    norm_num
  rw [roundF32_eq_of (1 / 10) (-4) 13421773 (by norm_num [abs_of_pos, zpow_neg])
    (by norm_num [abs_of_pos, zpow_neg]) (by norm_num) hm]
  norm_num [zpow_neg]

/-- The float quotient `-32768 / 32767.0f` is `-(1 + 2^-15)`. -/
theorem roundF32_min_quotient : roundF32 (-32768 / 32767) = -(32769 / 32768) := by
  have hm : roundNearestEven ((-32768 / 32767 : ℚ) / 2 ^ ((0 : ℤ) - 23)) = -8388864 := by
    have ht : (-32768 / 32767 : ℚ) / 2 ^ ((0 : ℤ) - 23) = -274877906944 / 32767 := by
      norm_num [zpow_neg]
    have hf : ⌊(-274877906944 / 32767 : ℚ)⌋ = -8388865 := by
      rw [Int.floor_eq_iff]; norm_num
    rw [ht]
    unfold roundNearestEven
    rw [hf]
    norm_num
  rw [roundF32_eq_of (-32768 / 32767) 0 (-8388864) (by norm_num [abs_of_neg])
    (by norm_num [abs_of_neg]) (by norm_num) hm]
  norm_num [zpow_neg]

/-! ## Axis normalisation, deadzone and triggers -/

theorem normalizeAxis_eq (raw : Int) (hlo : -32768 ≤ raw) (hhi : raw ≤ 32767) :
    normalizeAxis raw = roundF32 ((raw : ℚ) / 32767) := by
  have h : |raw| < 2 ^ 24 := by rw [abs_lt]; constructor <;> omega
  unfold normalizeAxis fdiv intToFloat
  rw [roundF32_intCast raw h, floatLit_32767]

/-- The float quotient differs from the exact quotient by a relative error of
at most `2^-24`. -/
theorem normalizeAxis_error (raw : Int) (hlo : -32768 ≤ raw) (hhi : raw ≤ 32767) :
    |normalizeAxis raw - (raw : ℚ) / 32767| ≤ |(raw : ℚ) / 32767| / 2 ^ 24 := by
  rw [normalizeAxis_eq raw hlo hhi]
  by_cases h0 : raw = 0
  · subst h0
    simp [roundF32_zero]
  · apply roundF32_rel_error
    have h1 : (1 : ℚ) ≤ |(raw : ℚ)| := by
      have : 1 ≤ |raw| := Int.one_le_abs h0
      exact_mod_cast this
    rw [abs_div, abs_of_pos (by norm_num : (0 : ℚ) < 32767)]
    calc (2 : ℚ) ^ (-126 : ℤ) ≤ 1 / 32767 := by
          rw [zpow_neg, ← one_div]
          apply one_div_le_one_div_of_le (by norm_num)
          norm_num
      _ ≤ |(raw : ℚ)| / 32767 := by
          apply div_le_div_of_nonneg_right h1 (by norm_num)

theorem normalizeAxis_min : normalizeAxis (-32768) = -(32769 / 32768) := by
  rw [normalizeAxis_eq (-32768) (by norm_num) (by norm_num)]
  have := roundF32_min_quotient
  simpa using this

/-- Bounds of the float quotient for a non-negative raw value. -/
theorem normalizeAxis_bounds_nonneg (raw : Int) (h0 : 0 ≤ raw) (hhi : raw ≤ 32767) :
    (raw : ℚ) / 32767 * (1 - 1 / 2 ^ 24) ≤ normalizeAxis raw ∧
    normalizeAxis raw ≤ (raw : ℚ) / 32767 * (1 + 1 / 2 ^ 24) := by
  have h := normalizeAxis_error raw (by omega) hhi
  have hq : (0 : ℚ) ≤ (raw : ℚ) / 32767 := by
    have : (0 : ℚ) ≤ (raw : ℚ) := by exact_mod_cast h0
    positivity
  rw [abs_of_nonneg hq, abs_le] at h
  constructor <;> linarith [h.1, h.2]

/-- Bounds of the float quotient for a non-positive raw value. -/
theorem normalizeAxis_bounds_nonpos (raw : Int) (hlo : -32768 ≤ raw) (h0 : raw ≤ 0) :
    (raw : ℚ) / 32767 * (1 + 1 / 2 ^ 24) ≤ normalizeAxis raw ∧
    normalizeAxis raw ≤ (raw : ℚ) / 32767 * (1 - 1 / 2 ^ 24) := by
  have h := normalizeAxis_error raw hlo (by omega)
  have hq : (raw : ℚ) / 32767 ≤ 0 := by
    have : (raw : ℚ) ≤ 0 := by exact_mod_cast h0
    apply div_nonpos_of_nonpos_of_nonneg this (by norm_num)
  rw [abs_of_nonpos hq, abs_le] at h
  constructor <;> linarith [h.1, h.2]

/-- The deadzone test `std::abs(value) < 0.1f` succeeds exactly for
`|raw| ≤ 3276`. -/
theorem deadzone_test_iff (raw : Int) (hlo : -32768 ≤ raw) (hhi : raw ≤ 32767) :
    |normalizeAxis raw| < floatLit (1 / 10) ↔ |raw| ≤ 3276 := by
  rw [floatLit_tenth]
  rcases le_total 0 raw with h0 | h0
  · have hb := normalizeAxis_bounds_nonneg raw h0 hhi
    have hq : (0 : ℚ) ≤ (raw : ℚ) := by exact_mod_cast h0
    have hn : 0 ≤ normalizeAxis raw := by
      have : (0 : ℚ) ≤ (raw : ℚ) / 32767 * (1 - 1 / 2 ^ 24) := by positivity
      linarith [hb.1]
    rw [abs_of_nonneg hn, abs_of_nonneg h0]
    constructor
    · intro hlt
      by_contra hc
      have : (3277 : ℚ) ≤ (raw : ℚ) := by
        have : (3277 : ℤ) ≤ raw := by omega
        exact_mod_cast this
      linarith [hb.1]
    · intro hle
      have : (raw : ℚ) ≤ 3276 := by exact_mod_cast hle
      linarith [hb.2]
  · have hb := normalizeAxis_bounds_nonpos raw hlo h0
    have hq : (raw : ℚ) ≤ 0 := by exact_mod_cast h0
    have hn : normalizeAxis raw ≤ 0 := by
      have : (raw : ℚ) / 32767 * (1 - 1 / 2 ^ 24) ≤ 0 := by
        apply mul_nonpos_of_nonpos_of_nonneg
        · exact div_nonpos_of_nonpos_of_nonneg hq (by norm_num)
        · norm_num
      linarith [hb.2]
    rw [abs_of_nonpos hn, abs_of_nonpos h0]
    constructor
    · intro hlt
      by_contra hc
      have : (raw : ℚ) ≤ -3277 := by
        have : raw ≤ (-3277 : ℤ) := by omega
        exact_mod_cast this
      linarith [hb.2]
    · intro hle
      have : (-3276 : ℚ) ≤ (raw : ℚ) := by
        have : (-3276 : ℤ) ≤ raw := by omega
        exact_mod_cast this
      linarith [hb.1]

theorem deadzoneValue_inside (raw : Int) (hlo : -32768 ≤ raw) (hhi : raw ≤ 32767)
    (h : |raw| ≤ 3276) : deadzoneValue raw = 0 := by
  unfold deadzoneValue
  rw [if_pos ((deadzone_test_iff raw hlo hhi).mpr h), floatLit_zero]

theorem deadzoneValue_outside (raw : Int) (hlo : -32768 ≤ raw) (hhi : raw ≤ 32767)
    (h : 3277 ≤ |raw|) : deadzoneValue raw = normalizeAxis raw := by
  unfold deadzoneValue
  rw [if_neg]
  rw [deadzone_test_iff raw hlo hhi]
  omega

/-- The float quotient has the sign of the raw value. -/
theorem normalizeAxis_pos_iff (raw : Int) (hlo : -32768 ≤ raw) (hhi : raw ≤ 32767) :
    0 < normalizeAxis raw ↔ 0 < raw := by
  rcases lt_trichotomy raw 0 with h | h | h
  · have hb := normalizeAxis_bounds_nonpos raw hlo h.le
    have hq : (raw : ℚ) ≤ -1 := by
      have : raw ≤ (-1 : ℤ) := by omega
      exact_mod_cast this
    constructor
    · intro hp; linarith [hb.2]
    · intro hp; omega
  · subst h
    have : normalizeAxis 0 = 0 := by
      rw [normalizeAxis_eq 0 (by norm_num) (by norm_num)]
      simp [roundF32_zero]
    simp [this]
  · have hb := normalizeAxis_bounds_nonneg raw h.le hhi
    have hq : (1 : ℚ) ≤ (raw : ℚ) := by
      have : (1 : ℤ) ≤ raw := by omega
      exact_mod_cast this
    constructor
    · intro _; exact h
    · intro _; linarith [hb.1]

theorem normalizeAxis_neg_iff (raw : Int) (hlo : -32768 ≤ raw) (hhi : raw ≤ 32767) :
    normalizeAxis raw < 0 ↔ raw < 0 := by
  rcases lt_trichotomy raw 0 with h | h | h
  · have hb := normalizeAxis_bounds_nonpos raw hlo h.le
    have hq : (raw : ℚ) ≤ -1 := by
      have : raw ≤ (-1 : ℤ) := by omega
      exact_mod_cast this
    constructor
    · intro _; exact h
    · intro _; linarith [hb.2]
  · subst h
    have : normalizeAxis 0 = 0 := by
      rw [normalizeAxis_eq 0 (by norm_num) (by norm_num)]
      simp [roundF32_zero]
    simp [this]
  · have hb := normalizeAxis_bounds_nonneg raw h.le hhi
    have hq : (1 : ℚ) ≤ (raw : ℚ) := by
      have : (1 : ℤ) ≤ raw := by omega
      exact_mod_cast this
    constructor
    · intro hp; linarith [hb.1]
    · intro hp; omega

/-- The trigger test `value > 0.5f` on the float quotient succeeds exactly for
`raw ≥ 16384`. -/
theorem half_lt_normalizeAxis_iff (raw : Int) (hlo : -32768 ≤ raw) (hhi : raw ≤ 32767) :
    floatLit (1 / 2) < normalizeAxis raw ↔ 16384 ≤ raw := by
  rw [floatLit_half]
  rcases le_total 0 raw with h0 | h0
  · have hb := normalizeAxis_bounds_nonneg raw h0 hhi
    constructor
    · intro hlt
      by_contra hc
      have : (raw : ℚ) ≤ 16383 := by
        have : raw ≤ (16383 : ℤ) := by omega
        exact_mod_cast this
      linarith [hb.2]
    · intro hle
      have : (16384 : ℚ) ≤ (raw : ℚ) := by exact_mod_cast hle
      linarith [hb.1]
  · have hb := normalizeAxis_bounds_nonpos raw hlo h0
    have hq : (raw : ℚ) ≤ 0 := by exact_mod_cast h0
    constructor
    · intro hlt
      have : (raw : ℚ) / 32767 * (1 - 1 / 2 ^ 24) ≤ 0 := by
        apply mul_nonpos_of_nonpos_of_nonneg
        · exact div_nonpos_of_nonpos_of_nonneg hq (by norm_num)
        · norm_num
      linarith [hb.2]
    · intro hle; omega

/-- The trigger test on the value left by the deadzone. -/
theorem half_lt_deadzoneValue_iff (raw : Int) (hlo : -32768 ≤ raw) (hhi : raw ≤ 32767) :
    floatLit (1 / 2) < deadzoneValue raw ↔ 16384 ≤ raw := by
  by_cases h : |raw| ≤ 3276
  · rw [deadzoneValue_inside raw hlo hhi h, floatLit_half]
    have := abs_le.mp h
    constructor
    · intro hlt; norm_num at hlt
    · intro hle; omega
  · rw [deadzoneValue_outside raw hlo hhi (by omega)]
    exact half_lt_normalizeAxis_iff raw hlo hhi

theorem normalizeAxis_zero : normalizeAxis 0 = 0 := by
  rw [normalizeAxis_eq 0 (by norm_num) (by norm_num)]
  simp [roundF32_zero]

/-- Away from `-32768` the float quotient lies in `[-1, 1]`. -/
theorem normalizeAxis_unit_range (raw : Int) (hlo : -32767 ≤ raw) (hhi : raw ≤ 32767) :
    -1 ≤ normalizeAxis raw ∧ normalizeAxis raw ≤ 1 := by
  by_cases h1 : raw = 32767
  · subst h1
    rw [normalizeAxis_eq 32767 (by norm_num) (by norm_num)]
    have := roundF32_intCast 1 (by norm_num)
    norm_num at this ⊢
    rw [this]
    norm_num
  by_cases h2 : raw = -32767
  · subst h2
    rw [normalizeAxis_eq (-32767) (by norm_num) (by norm_num)]
    have := roundF32_intCast (-1) (by norm_num)
    norm_num at this ⊢
    rw [this]
    norm_num
  rcases le_total 0 raw with h0 | h0
  · have hb := normalizeAxis_bounds_nonneg raw h0 hhi
    have hq : (0 : ℚ) ≤ (raw : ℚ) := by exact_mod_cast h0
    have hq2 : (raw : ℚ) ≤ 32766 := by
      have : raw ≤ (32766 : ℤ) := by omega
      exact_mod_cast this
    constructor <;> linarith [hb.1, hb.2]
  · have hb := normalizeAxis_bounds_nonpos raw (by omega) h0
    have hq : (raw : ℚ) ≤ 0 := by exact_mod_cast h0
    have hq2 : (-32766 : ℚ) ≤ (raw : ℚ) := by
      have : (-32766 : ℤ) ≤ raw := by omega
      exact_mod_cast this
    constructor <;> linarith [hb.1, hb.2]

theorem deadzoneValue_min : deadzoneValue (-32768) = -(32769 / 32768) := by
  rw [deadzoneValue_outside (-32768) (by norm_num) (by norm_num) (by norm_num), normalizeAxis_min]

/-- The stored value never exceeds `1 + 2^-15` in magnitude. -/
theorem deadzoneValue_abs_le (raw : Int) (hlo : -32768 ≤ raw) (hhi : raw ≤ 32767) :
    |deadzoneValue raw| ≤ 32769 / 32768 := by
  by_cases hin : |raw| ≤ 3276
  · rw [deadzoneValue_inside raw hlo hhi hin]
    norm_num
  rw [deadzoneValue_outside raw hlo hhi (by omega)]
  by_cases hmin : raw = -32768
  · subst hmin
    rw [normalizeAxis_min]
    norm_num [abs_of_neg]
  · have := normalizeAxis_unit_range raw (by omega) hhi
    rw [abs_le]
    constructor <;> linarith [this.1, this.2]

@[simp] theorem assignStick_sticks_self (v : ControllerVisualizer) (i : Fin 2) (st : AnalogStick) :
    (v.assignStick i st).sticks i = st := by
  simp [ControllerVisualizer.assignStick]

theorem handleStickMovement_leftX (v : ControllerVisualizer) (raw : Int) :
    (handleStickMovement v SDL_CONTROLLER_AXIS_LEFTX raw).sticks 0 =
      (v.sticks 0).setXValue (deadzoneValue raw) := by
  simp [handleStickMovement]

theorem handleStickMovement_leftY (v : ControllerVisualizer) (raw : Int) :
    (handleStickMovement v SDL_CONTROLLER_AXIS_LEFTY raw).sticks 0 =
      (v.sticks 0).setYValue (deadzoneValue raw) := by
  simp [handleStickMovement, SDL_CONTROLLER_AXIS_LEFTY, SDL_CONTROLLER_AXIS_LEFTX]

theorem handleStickMovement_rightX (v : ControllerVisualizer) (raw : Int) :
    (handleStickMovement v SDL_CONTROLLER_AXIS_RIGHTX raw).sticks 1 =
      (v.sticks 1).setXValue (deadzoneValue raw) := by
  simp [handleStickMovement, SDL_CONTROLLER_AXIS_LEFTY, SDL_CONTROLLER_AXIS_LEFTX,
    SDL_CONTROLLER_AXIS_RIGHTX]

theorem handleStickMovement_rightY (v : ControllerVisualizer) (raw : Int) :
    (handleStickMovement v SDL_CONTROLLER_AXIS_RIGHTY raw).sticks 1 =
      (v.sticks 1).setYValue (deadzoneValue raw) := by
  simp [handleStickMovement, SDL_CONTROLLER_AXIS_LEFTY, SDL_CONTROLLER_AXIS_LEFTX,
    SDL_CONTROLLER_AXIS_RIGHTX, SDL_CONTROLLER_AXIS_RIGHTY]

theorem handleStickMovement_triggerLeft (v : ControllerVisualizer) (raw : Int) :
    handleStickMovement v SDL_CONTROLLER_AXIS_TRIGGERLEFT raw =
      v.pressButton BUTTON_L2 (decide (floatLit (1 / 2) < deadzoneValue raw)) := by
  simp [handleStickMovement, SDL_CONTROLLER_AXIS_LEFTY, SDL_CONTROLLER_AXIS_LEFTX,
    SDL_CONTROLLER_AXIS_RIGHTX, SDL_CONTROLLER_AXIS_RIGHTY, SDL_CONTROLLER_AXIS_TRIGGERLEFT]

theorem handleStickMovement_triggerRight (v : ControllerVisualizer) (raw : Int) :
    handleStickMovement v SDL_CONTROLLER_AXIS_TRIGGERRIGHT raw =
      v.pressButton BUTTON_R2 (decide (floatLit (1 / 2) < deadzoneValue raw)) := by
  simp [handleStickMovement, SDL_CONTROLLER_AXIS_LEFTY, SDL_CONTROLLER_AXIS_LEFTX,
    SDL_CONTROLLER_AXIS_RIGHTX, SDL_CONTROLLER_AXIS_RIGHTY, SDL_CONTROLLER_AXIS_TRIGGERLEFT,
    SDL_CONTROLLER_AXIS_TRIGGERRIGHT]

/-- C3, at the failing input. The raw value `-32768` is normalised to
`-(1 + 2^-15)`, which `handleStickMovement` stores in the stick: a value below
`-1`, outside the range `-1.0 to 1.0` that the source comment announces. -/
theorem normalize_min_below_minus_one (v : ControllerVisualizer) :
    normalizeAxis (-32768) = -(32769 / 32768) ∧
    ((handleStickMovement v SDL_CONTROLLER_AXIS_LEFTX (-32768)).sticks 0).xValue
      = -(32769 / 32768) ∧
    ((handleStickMovement v SDL_CONTROLLER_AXIS_LEFTX (-32768)).sticks 0).xValue < -1 := by
  rw [handleStickMovement_leftX, deadzoneValue_min]
  refine ⟨normalizeAxis_min, rfl, ?_⟩
  show (-(32769 / 32768) : ℚ) < -1
  norm_num

/-- C4. Deadzone: for a signed 16-bit raw value the deadzone test
`|value| < 0.1f` holds exactly when `|raw| ≤ 3276`; each of the four stick axes
stores `0` in its field in that case and the float quotient `raw / 32767.0f`
otherwise, which is then non-zero and has the sign of `raw`. -/
theorem deadzone_stored_value (v : ControllerVisualizer) (raw : Int)
    (hlo : -32768 ≤ raw) (hhi : raw ≤ 32767) :
    (|normalizeAxis raw| < floatLit (1 / 10) ↔ |raw| ≤ 3276) ∧
    ((handleStickMovement v SDL_CONTROLLER_AXIS_LEFTX raw).sticks 0).xValue
      = (if |raw| ≤ 3276 then 0 else normalizeAxis raw) ∧
    ((handleStickMovement v SDL_CONTROLLER_AXIS_LEFTY raw).sticks 0).yValue
      = (if |raw| ≤ 3276 then 0 else normalizeAxis raw) ∧
    ((handleStickMovement v SDL_CONTROLLER_AXIS_RIGHTX raw).sticks 1).xValue
      = (if |raw| ≤ 3276 then 0 else normalizeAxis raw) ∧
    ((handleStickMovement v SDL_CONTROLLER_AXIS_RIGHTY raw).sticks 1).yValue
      = (if |raw| ≤ 3276 then 0 else normalizeAxis raw) ∧
    (3277 ≤ |raw| → normalizeAxis raw ≠ 0 ∧ (0 < normalizeAxis raw ↔ 0 < raw) ∧
      (normalizeAxis raw < 0 ↔ raw < 0)) := by
  have hv : deadzoneValue raw = (if |raw| ≤ 3276 then 0 else normalizeAxis raw) := by
    split_ifs with h
    · exact deadzoneValue_inside raw hlo hhi h
    · exact deadzoneValue_outside raw hlo hhi (by omega)
  refine ⟨deadzone_test_iff raw hlo hhi, ?_, ?_, ?_, ?_, ?_⟩
  · rw [handleStickMovement_leftX, ← hv]; rfl
  · rw [handleStickMovement_leftY, ← hv]; rfl
  · rw [handleStickMovement_rightX, ← hv]; rfl
  · rw [handleStickMovement_rightY, ← hv]; rfl
  · intro h
    have hp := normalizeAxis_pos_iff raw hlo hhi
    have hn := normalizeAxis_neg_iff raw hlo hhi
    refine ⟨?_, hp, hn⟩
    intro h0
    rcases lt_or_gt_of_ne (show raw ≠ 0 by intro h'; subst h'; norm_num at h) with hr | hr
    · have := hn.mpr hr
      linarith
    · have := hp.mpr hr
      linarith

theorem deadzone_stored_value_witness :
    (|normalizeAxis 3277| < floatLit (1 / 10) ↔ |(3277 : Int)| ≤ 3276) ∧
    ((handleStickMovement sampleVisualizer SDL_CONTROLLER_AXIS_LEFTX 3277).sticks 0).xValue
      = (if |(3277 : Int)| ≤ 3276 then 0 else normalizeAxis 3277) ∧
    ((handleStickMovement sampleVisualizer SDL_CONTROLLER_AXIS_LEFTY 3277).sticks 0).yValue
      = (if |(3277 : Int)| ≤ 3276 then 0 else normalizeAxis 3277) ∧
    ((handleStickMovement sampleVisualizer SDL_CONTROLLER_AXIS_RIGHTX 3277).sticks 1).xValue
      = (if |(3277 : Int)| ≤ 3276 then 0 else normalizeAxis 3277) ∧
    ((handleStickMovement sampleVisualizer SDL_CONTROLLER_AXIS_RIGHTY 3277).sticks 1).yValue
      = (if |(3277 : Int)| ≤ 3276 then 0 else normalizeAxis 3277) ∧
    (3277 ≤ |(3277 : Int)| → normalizeAxis 3277 ≠ 0 ∧ (0 < normalizeAxis 3277 ↔ 0 < (3277 : Int)) ∧
      (normalizeAxis 3277 < 0 ↔ (3277 : Int) < 0)) :=
  deadzone_stored_value sampleVisualizer 3277 (by decide) (by decide)

/-- C7. L2/R2 triggers are reported through their axes: for a signed 16-bit
raw value, an event on the left (right) trigger axis leaves L2 at index 16 (R2
at index 17) pressed exactly when the float quotient exceeds `0.5f`, that is
when `raw ≥ 16384`; every other button, both sticks and `running` are kept. -/
theorem trigger_axis_sets_button (v : ControllerVisualizer) (raw : Int)
    (hlo : -32768 ≤ raw) (hhi : raw ≤ 32767) :
    ((((handleStickMovement v SDL_CONTROLLER_AXIS_TRIGGERLEFT raw).buttons BUTTON_L2).isPressed = true
        ↔ floatLit (1 / 2) < normalizeAxis raw) ∧
      (((handleStickMovement v SDL_CONTROLLER_AXIS_TRIGGERLEFT raw).buttons BUTTON_L2).isPressed = true
        ↔ 16384 ≤ raw) ∧
      (∀ j : Fin MAX_BUTTON_INDEX, j ≠ BUTTON_L2 →
        (handleStickMovement v SDL_CONTROLLER_AXIS_TRIGGERLEFT raw).buttons j = v.buttons j) ∧
      (handleStickMovement v SDL_CONTROLLER_AXIS_TRIGGERLEFT raw).sticks = v.sticks ∧
      (handleStickMovement v SDL_CONTROLLER_AXIS_TRIGGERLEFT raw).running = v.running) ∧
    ((((handleStickMovement v SDL_CONTROLLER_AXIS_TRIGGERRIGHT raw).buttons BUTTON_R2).isPressed = true
        ↔ floatLit (1 / 2) < normalizeAxis raw) ∧
      (((handleStickMovement v SDL_CONTROLLER_AXIS_TRIGGERRIGHT raw).buttons BUTTON_R2).isPressed = true
        ↔ 16384 ≤ raw) ∧
      (∀ j : Fin MAX_BUTTON_INDEX, j ≠ BUTTON_R2 →
        (handleStickMovement v SDL_CONTROLLER_AXIS_TRIGGERRIGHT raw).buttons j = v.buttons j) ∧
      (handleStickMovement v SDL_CONTROLLER_AXIS_TRIGGERRIGHT raw).sticks = v.sticks ∧
      (handleStickMovement v SDL_CONTROLLER_AXIS_TRIGGERRIGHT raw).running = v.running) := by
  have h1 := half_lt_deadzoneValue_iff raw hlo hhi
  have h2 := half_lt_normalizeAxis_iff raw hlo hhi
  rw [handleStickMovement_triggerLeft, handleStickMovement_triggerRight]
  refine ⟨⟨?_, ?_, ?_, rfl, rfl⟩, ⟨?_, ?_, ?_, rfl, rfl⟩⟩
  · simp only [Button.isPressed, pressButton_buttons_self, setPressed_pressed,
      decide_eq_true_eq]
    exact h1.trans h2.symm
  · simp only [Button.isPressed, pressButton_buttons_self, setPressed_pressed,
      decide_eq_true_eq]
    exact h1
  · intro j hj; exact pressButton_buttons_ne v BUTTON_L2 j _ hj
  · simp only [Button.isPressed, pressButton_buttons_self, setPressed_pressed,
      decide_eq_true_eq]
    exact h1.trans h2.symm
  · simp only [Button.isPressed, pressButton_buttons_self, setPressed_pressed,
      decide_eq_true_eq]
    exact h1
  · intro j hj; exact pressButton_buttons_ne v BUTTON_R2 j _ hj

theorem trigger_axis_sets_button_witness :
    ((((handleStickMovement sampleVisualizer SDL_CONTROLLER_AXIS_TRIGGERLEFT 16384).buttons
          BUTTON_L2).isPressed = true ↔ floatLit (1 / 2) < normalizeAxis 16384) ∧
      (((handleStickMovement sampleVisualizer SDL_CONTROLLER_AXIS_TRIGGERLEFT 16384).buttons
          BUTTON_L2).isPressed = true ↔ (16384 : Int) ≤ 16384) ∧
      (∀ j : Fin MAX_BUTTON_INDEX, j ≠ BUTTON_L2 →
        (handleStickMovement sampleVisualizer SDL_CONTROLLER_AXIS_TRIGGERLEFT 16384).buttons j
          = sampleVisualizer.buttons j) ∧
      (handleStickMovement sampleVisualizer SDL_CONTROLLER_AXIS_TRIGGERLEFT 16384).sticks
        = sampleVisualizer.sticks ∧
      (handleStickMovement sampleVisualizer SDL_CONTROLLER_AXIS_TRIGGERLEFT 16384).running
        = sampleVisualizer.running) ∧
    ((((handleStickMovement sampleVisualizer SDL_CONTROLLER_AXIS_TRIGGERRIGHT 16384).buttons
          BUTTON_R2).isPressed = true ↔ floatLit (1 / 2) < normalizeAxis 16384) ∧
      (((handleStickMovement sampleVisualizer SDL_CONTROLLER_AXIS_TRIGGERRIGHT 16384).buttons
          BUTTON_R2).isPressed = true ↔ (16384 : Int) ≤ 16384) ∧
      (∀ j : Fin MAX_BUTTON_INDEX, j ≠ BUTTON_R2 →
        (handleStickMovement sampleVisualizer SDL_CONTROLLER_AXIS_TRIGGERRIGHT 16384).buttons j
          = sampleVisualizer.buttons j) ∧
      (handleStickMovement sampleVisualizer SDL_CONTROLLER_AXIS_TRIGGERRIGHT 16384).sticks
        = sampleVisualizer.sticks ∧
      (handleStickMovement sampleVisualizer SDL_CONTROLLER_AXIS_TRIGGERRIGHT 16384).running
        = sampleVisualizer.running) :=
  trigger_axis_sets_button sampleVisualizer 16384 (by decide) (by decide)

/-! ## Circle rasterisation -/

/-- Function `DrawCircle` draws the eight points of every iteration. -/
theorem DrawCircleLoop_eq_states (x y radius : Int) (fuel : Nat) :
    ∀ ox oy d : Int, DrawCircleLoop x y radius fuel ox oy d =
      (circleLoopStates radius fuel ox oy d).map
        (fun sts => sts.flatMap (CircleState.points x y)) := by
  induction fuel with
  | zero =>
    intro ox oy d
    simp only [DrawCircleLoop, circleLoopStates]
    split_ifs <;> simp
  | succ n ih =>
    intro ox oy d
    simp only [DrawCircleLoop, circleLoopStates]
    split_ifs <;> simp [ih, Option.map_map, Function.comp_def, CircleState.points]

/-- Function `DrawFilledCircle` draws the four lines of every iteration. -/
theorem DrawFilledCircleLoop_eq_states (x y radius : Int) (fuel : Nat) :
    ∀ ox oy d : Int, DrawFilledCircleLoop x y radius fuel ox oy d =
      (circleLoopStates radius fuel ox oy d).map
        (fun sts => sts.flatMap (CircleState.lines x y)) := by
  induction fuel with
  | zero =>
    intro ox oy d
    simp only [DrawFilledCircleLoop, circleLoopStates]
    split_ifs <;> simp
  | succ n ih =>
    intro ox oy d
    simp only [DrawFilledCircleLoop, circleLoopStates]
    split_ifs <;> simp [ih, Option.map_map, Function.comp_def, CircleState.lines]

/-- The loop ends within `offsety - offsetx + 1` iterations. -/
theorem idealCircleStates_terminates (radius : Int) (fuel : Nat) :
    ∀ ox oy d : Int, oy - ox < fuel → ∃ sts, idealCircleStates radius fuel ox oy d = some sts := by
  induction fuel with
  | zero =>
    intro ox oy d h
    have : ¬ oy ≥ ox := by simp at h; omega
    exact ⟨[], by simp [idealCircleStates, this]⟩
  | succ n ih =>
    intro ox oy d h
    simp only [idealCircleStates]
    push_cast at h
    split_ifs with hg h1 h2
    · obtain ⟨sts, hs⟩ := ih (ox + 1) oy (d - (2 * ox + 1)) (by omega)
      exact ⟨_, by rw [hs]; rfl⟩
    · obtain ⟨sts, hs⟩ := ih ox (oy - 1) (d + (2 * oy - 1)) (by omega)
      exact ⟨_, by rw [hs]; rfl⟩
    · obtain ⟨sts, hs⟩ := ih (ox + 1) (oy - 1) (d + 2 * (oy - ox - 1)) (by omega)
      exact ⟨_, by rw [hs]; rfl⟩
    · exact ⟨[], rfl⟩

theorem circleInv_step1 (r ox oy d : Int) (h : CircleInv r ⟨ox, oy, d⟩) (h1 : d ≥ 2 * ox)
    (hg : oy ≥ ox + 1) : CircleInv r ⟨ox + 1, oy, d - (2 * ox + 1)⟩ := by
  obtain ⟨a, b, c, e, f, g⟩ := h
  simp only at a b c e f g
  refine ⟨by simp only; omega, by simp only; omega, c, ?_, by simp only; omega,
    by simp only; omega⟩
  simp only
  linear_combination e

theorem circleInv_step2 (r ox oy d : Int) (h : CircleInv r ⟨ox, oy, d⟩)
    (h2 : d < 2 * (r - oy)) (hg : oy - 1 ≥ ox) :
    CircleInv r ⟨ox, oy - 1, d + (2 * oy - 1)⟩ := by
  obtain ⟨a, b, c, e, f, g⟩ := h
  simp only at a b c e f g
  refine ⟨a, by simp only; omega, by simp only; omega, ?_, by simp only; omega,
    by simp only; omega⟩
  simp only
  linear_combination e

theorem circleInv_step3 (r ox oy d : Int) (h : CircleInv r ⟨ox, oy, d⟩) (h1 : ¬ d ≥ 2 * ox)
    (hg : oy - 1 ≥ ox + 1) :
    CircleInv r ⟨ox + 1, oy - 1, d + 2 * (oy - ox - 1)⟩ := by
  obtain ⟨a, b, c, e, f, g⟩ := h
  simp only at a b c e f g
  refine ⟨by simp only; omega, by simp only; omega, by simp only; omega, ?_,
    by simp only; omega, by simp only; omega⟩
  simp only
  linear_combination e

/-- Every iteration starts in a state that satisfies the invariant. -/
theorem idealCircleStates_inv (r : Int) (fuel : Nat) :
    ∀ (ox oy d : Int) (sts : List CircleState), (oy ≥ ox → CircleInv r ⟨ox, oy, d⟩) →
      idealCircleStates r fuel ox oy d = some sts → ∀ s ∈ sts, CircleInv r s := by
  induction fuel with
  | zero =>
    intro ox oy d sts _ h
    simp only [idealCircleStates] at h
    split_ifs at h
    simp only [Option.some.injEq] at h
    subst h
    simp
  | succ n ih =>
    intro ox oy d sts hinv h
    simp only [idealCircleStates] at h
    split_ifs at h with hg h1 h2
    · obtain ⟨more, hm, rfl⟩ := Option.map_eq_some'.mp h
      intro s hs
      rcases List.mem_cons.mp hs with rfl | hs
      · exact hinv hg
      · exact ih _ _ _ more (fun hg' => circleInv_step1 r ox oy d (hinv hg) h1 hg') hm s hs
    · obtain ⟨more, hm, rfl⟩ := Option.map_eq_some'.mp h
      intro s hs
      rcases List.mem_cons.mp hs with rfl | hs
      · exact hinv hg
      · exact ih _ _ _ more (fun hg' => circleInv_step2 r ox oy d (hinv hg) h2 hg') hm s hs
    · obtain ⟨more, hm, rfl⟩ := Option.map_eq_some'.mp h
      intro s hs
      rcases List.mem_cons.mp hs with rfl | hs
      · exact hinv hg
      · exact ih _ _ _ more (fun hg' => circleInv_step3 r ox oy d (hinv hg) h1 hg') hm s hs
    · simp only [Option.some.injEq] at h
      subst h
      simp

theorem circleInv_initial (r : Int) (hr : 1 ≤ r) : CircleInv r ⟨0, r, r - 1⟩ := by
  refine ⟨le_refl _, by simp only; omega, le_refl _, ?_, by simp only; omega,
    by simp only; omega⟩
  simp only
  ring

/-! ### The 32-bit loop and the loop over the integers -/

theorem wrapInt_eq (n : Int) (h1 : -2147483648 ≤ n) (h2 : n ≤ 2147483647) : wrapInt n = n := by
  unfold wrapInt
  omega

theorem iadd_eq (a b : Int) (h1 : -2147483648 ≤ a + b) (h2 : a + b ≤ 2147483647) :
    iadd a b = a + b := wrapInt_eq _ h1 h2

theorem isub_eq (a b : Int) (h1 : -2147483648 ≤ a - b) (h2 : a - b ≤ 2147483647) :
    isub a b = a - b := wrapInt_eq _ h1 h2

theorem imul_eq (a b : Int) (h1 : -2147483648 ≤ a * b) (h2 : a * b ≤ 2147483647) :
    imul a b = a * b := wrapInt_eq _ h1 h2

/-- For a radius below `2^30` no operation of the loop overflows in a state of
the invariant, so the 32-bit loop runs exactly like the loop over the
integers. -/
theorem circleLoopStates_eq_ideal (r : Int) (hr : r < 1073741824) (fuel : Nat) :
    ∀ ox oy d : Int, (oy ≥ ox → CircleInv r ⟨ox, oy, d⟩) →
      circleLoopStates r fuel ox oy d = idealCircleStates r fuel ox oy d := by
  induction fuel with
  | zero =>
    intro ox oy d _
    simp only [circleLoopStates, idealCircleStates]
  | succ n ih =>
    intro ox oy d hinv
    simp only [circleLoopStates, idealCircleStates]
    by_cases hg : oy ≥ ox
    · have hi := hinv hg
      obtain ⟨a, b, c, e, f, g⟩ := hinv hg
      simp only at a b c e f g
      have e1 : imul 2 ox = 2 * ox := imul_eq _ _ (by omega) (by omega)
      have e2 : imul 2 (isub r oy) = 2 * (r - oy) := by
        rw [isub_eq r oy (by omega) (by omega)]
        exact imul_eq _ _ (by omega) (by omega)
      rw [if_pos hg, if_pos hg, e1, e2]
      by_cases h1 : d ≥ 2 * ox
      · have e3 : iadd ox 1 = ox + 1 := iadd_eq _ _ (by omega) (by omega)
        have e4 : isub d (iadd (2 * ox) 1) = d - (2 * ox + 1) := by
          rw [iadd_eq (2 * ox) 1 (by omega) (by omega)]
          exact isub_eq _ _ (by omega) (by omega)
        rw [if_pos h1, if_pos h1, e3, e4,
          ih _ _ _ (fun hg2 => circleInv_step1 r ox oy d hi h1 hg2)]
      · rw [if_neg h1, if_neg h1]
        have e5 : isub oy 1 = oy - 1 := isub_eq _ _ (by omega) (by omega)
        by_cases h2 : d < 2 * (r - oy)
        · have e6 : iadd d (isub (imul 2 oy) 1) = d + (2 * oy - 1) := by
            rw [imul_eq 2 oy (by omega) (by omega), isub_eq (2 * oy) 1 (by omega) (by omega)]
            exact iadd_eq _ _ (by omega) (by omega)
          rw [if_pos h2, if_pos h2, e5, e6,
            ih _ _ _ (fun hg2 => circleInv_step2 r ox oy d hi h2 hg2)]
        · have e3 : iadd ox 1 = ox + 1 := iadd_eq _ _ (by omega) (by omega)
          have e7 : iadd d (imul 2 (isub (isub oy ox) 1)) = d + 2 * (oy - ox - 1) := by
            rw [isub_eq oy ox (by omega) (by omega), isub_eq (oy - ox) 1 (by omega) (by omega),
              imul_eq 2 (oy - ox - 1) (by omega) (by omega)]
            exact iadd_eq _ _ (by omega) (by omega)
          rw [if_neg h2, if_neg h2, e3, e5, e7,
            ih _ _ _ (fun hg2 => circleInv_step3 r ox oy d hi h1 hg2)]
    · rw [if_neg hg, if_neg hg]

/-- The states of the 32-bit loop started by `DrawCircle` and
`DrawFilledCircle`, for a radius from 1 to `2^30 - 1`: the loop ends and every
state satisfies the invariant. -/
theorem circleLoopStates_run (r : Int) (hr : 1 ≤ r) (hr2 : r < 1073741824) :
    ∃ states : List CircleState,
      circleLoopStates r (r + 1).toNat 0 r (isub r 1) = some states ∧
      idealCircleStates r (r + 1).toNat 0 r (r - 1) = some states ∧
      ∀ s ∈ states, CircleInv r s := by
  obtain ⟨states, hs⟩ := idealCircleStates_terminates r (r + 1).toNat 0 r (r - 1)
    (by rw [Int.toNat_of_nonneg (by omega)]; omega)
  have hinv := idealCircleStates_inv r _ 0 r (r - 1) states (fun _ => circleInv_initial r hr) hs
  refine ⟨states, ?_, hs, hinv⟩
  rw [isub_eq r 1 (by omega) (by omega),
    circleLoopStates_eq_ideal r hr2 _ 0 r (r - 1) (fun _ => circleInv_initial r hr), hs]

/-- The points of a state of the invariant, when the circle fits into the
`int` range around its centre. -/
theorem points_eq_exact (x y r : Int) (s : CircleState) (h : CircleInv r s)
    (hx1 : -2147483648 ≤ x - r) (hx2 : x + r ≤ 2147483647)
    (hy1 : -2147483648 ≤ y - r) (hy2 : y + r ≤ 2147483647) :
    s.points x y =
      [⟨x + s.offsetx, y + s.offsety⟩, ⟨x + s.offsety, y + s.offsetx⟩,
       ⟨x - s.offsetx, y + s.offsety⟩, ⟨x - s.offsety, y + s.offsetx⟩,
       ⟨x + s.offsetx, y - s.offsety⟩, ⟨x + s.offsety, y - s.offsetx⟩,
       ⟨x - s.offsetx, y - s.offsety⟩, ⟨x - s.offsety, y - s.offsetx⟩] := by
  obtain ⟨a, b, c, _, _, _⟩ := h
  have a1 : iadd x s.offsetx = x + s.offsetx := iadd_eq _ _ (by omega) (by omega)
  have a2 : iadd x s.offsety = x + s.offsety := iadd_eq _ _ (by omega) (by omega)
  have a3 : isub x s.offsetx = x - s.offsetx := isub_eq _ _ (by omega) (by omega)
  have a4 : isub x s.offsety = x - s.offsety := isub_eq _ _ (by omega) (by omega)
  have b1 : iadd y s.offsetx = y + s.offsetx := iadd_eq _ _ (by omega) (by omega)
  have b2 : iadd y s.offsety = y + s.offsety := iadd_eq _ _ (by omega) (by omega)
  have b3 : isub y s.offsetx = y - s.offsetx := isub_eq _ _ (by omega) (by omega)
  have b4 : isub y s.offsety = y - s.offsety := isub_eq _ _ (by omega) (by omega)
  simp only [CircleState.points, a1, a2, a3, a4, b1, b2, b3, b4]

/-- The lines of a state of the invariant, when the circle fits into the
`int` range around its centre. -/
theorem lines_eq_exact (x y r : Int) (s : CircleState) (h0 : 0 ≤ s.offsetx)
    (h1 : s.offsetx ≤ s.offsety) (h2 : s.offsety ≤ r)
    (hx1 : -2147483648 ≤ x - r) (hx2 : x + r ≤ 2147483647)
    (hy1 : -2147483648 ≤ y - r) (hy2 : y + r ≤ 2147483647) :
    s.lines x y =
      [⟨x - s.offsety, y + s.offsetx, x + s.offsety, y + s.offsetx⟩,
       ⟨x - s.offsetx, y + s.offsety, x + s.offsetx, y + s.offsety⟩,
       ⟨x - s.offsetx, y - s.offsety, x + s.offsetx, y - s.offsety⟩,
       ⟨x - s.offsety, y - s.offsetx, x + s.offsety, y - s.offsetx⟩] := by
  have a1 : iadd x s.offsetx = x + s.offsetx := iadd_eq _ _ (by omega) (by omega)
  have a2 : iadd x s.offsety = x + s.offsety := iadd_eq _ _ (by omega) (by omega)
  have a3 : isub x s.offsetx = x - s.offsetx := isub_eq _ _ (by omega) (by omega)
  have a4 : isub x s.offsety = x - s.offsety := isub_eq _ _ (by omega) (by omega)
  have b1 : iadd y s.offsetx = y + s.offsetx := iadd_eq _ _ (by omega) (by omega)
  have b2 : iadd y s.offsety = y + s.offsety := iadd_eq _ _ (by omega) (by omega)
  have b3 : isub y s.offsetx = y - s.offsetx := isub_eq _ _ (by omega) (by omega)
  have b4 : isub y s.offsety = y - s.offsety := isub_eq _ _ (by omega) (by omega)
  simp only [CircleState.lines, a1, a2, a3, a4, b1, b2, b3, b4]

/-- A point drawn in a state that satisfies the invariant lies in the ring. -/
theorem points_in_ring (x y r : Int) (s : CircleState) (h : CircleInv r s)
    (hx1 : -2147483648 ≤ x - r) (hx2 : x + r ≤ 2147483647)
    (hy1 : -2147483648 ≤ y - r) (hy2 : y + r ≤ 2147483647) (p : SDL_Point)
    (hp : p ∈ s.points x y) :
    ∃ a b : Int, p = ⟨x + a, y + b⟩ ∧ r * r - r < a * a + b * b ∧ a * a + b * b ≤ r * r + r := by
  rw [points_eq_exact x y r s h hx1 hx2 hy1 hy2] at hp
  obtain ⟨_, _, _, e, f, g⟩ := h
  have key : r * r - r < s.offsetx * s.offsetx + s.offsety * s.offsety ∧
      s.offsetx * s.offsetx + s.offsety * s.offsety ≤ r * r + r := by
    constructor <;> linarith
  have key2 : r * r - r < s.offsety * s.offsety + s.offsetx * s.offsetx ∧
      s.offsety * s.offsety + s.offsetx * s.offsetx ≤ r * r + r := by
    constructor <;> linarith
  simp only [List.mem_cons, List.mem_singleton, List.not_mem_nil, or_false] at hp
  rcases hp with rfl | rfl | rfl | rfl | rfl | rfl | rfl | rfl
  · exact ⟨s.offsetx, s.offsety, rfl, key⟩
  · exact ⟨s.offsety, s.offsetx, rfl, key2⟩
  · exact ⟨-s.offsetx, s.offsety, by simp [sub_eq_add_neg], by simpa using key⟩
  · exact ⟨-s.offsety, s.offsetx, by simp [sub_eq_add_neg], by simpa using key2⟩
  · exact ⟨s.offsetx, -s.offsety, by simp [sub_eq_add_neg], by simpa using key⟩
  · exact ⟨s.offsety, -s.offsetx, by simp [sub_eq_add_neg], by simpa using key2⟩
  · exact ⟨-s.offsetx, -s.offsety, by simp [sub_eq_add_neg], by simpa using key⟩
  · exact ⟨-s.offsety, -s.offsetx, by simp [sub_eq_add_neg], by simpa using key2⟩

/-- C5 fails as stated: with the centre at `x = 2147483647` (the largest `int`)
and radius 1, `DrawCircle` computes `x + offsety` in 32-bit `int` and draws the
point `(-2147483648, 0)`, which is not `(x + a, y + b)` for any offsets with
`0 < a*a + b*b ≤ 2`. -/
theorem drawCircle_wraps_at_int_max :
    ∃ pts : List SDL_Point, DrawCircle 2147483647 0 1 = some pts ∧
      ∃ p ∈ pts, ¬ ∃ a b : Int, p = ⟨2147483647 + a, 0 + b⟩ ∧
        1 * 1 - 1 < a * a + b * b ∧ a * a + b * b ≤ 1 * 1 + 1 := by
  refine ⟨[⟨2147483647, 1⟩, ⟨-2147483648, 0⟩, ⟨2147483647, 1⟩, ⟨2147483646, 0⟩,
    ⟨2147483647, -1⟩, ⟨-2147483648, 0⟩, ⟨2147483647, -1⟩, ⟨2147483646, 0⟩,
    ⟨-2147483648, 1⟩, ⟨-2147483648, 1⟩, ⟨2147483646, 1⟩, ⟨2147483646, 1⟩,
    ⟨-2147483648, -1⟩, ⟨-2147483648, -1⟩, ⟨2147483646, -1⟩, ⟨2147483646, -1⟩],
    by decide, ⟨-2147483648, 0⟩, by decide, ?_⟩
  rintro ⟨a, b, hp, _, h2⟩
  have ha : (-2147483648 : Int) = 2147483647 + a := congrArg SDL_Point.x hp
  have hb : 0 ≤ b * b := mul_self_nonneg b
  have ha2 : a = -4294967295 := by omega
  subst ha2
  omega

/-- C5, amended. `DrawCircle` rasterises the circle outline using integers
only: for every radius `1 ≤ r < 2^30` and every centre for which `x - r`,
`x + r`, `y - r` and `y + r` are `int`s, the loop ends, the loop variable `d`
equals `r*r + r - 1 - (offsetx^2 + offsety^2)` at every iteration, and every
point drawn is `(x + a, y + b)` with `r*r - r < a*a + b*b ≤ r*r + r`, that is
with `(r - 1/2)^2 < a^2 + b^2 < (r + 1/2)^2`. -/
theorem drawCircle_points_in_ring (x y r : Int) (hr : 1 ≤ r) (hr2 : r < 1073741824)
    (hx1 : -2147483648 ≤ x - r) (hx2 : x + r ≤ 2147483647)
    (hy1 : -2147483648 ≤ y - r) (hy2 : y + r ≤ 2147483647) :
    ∃ (states : List CircleState) (pts : List SDL_Point),
      circleLoopStates r (r + 1).toNat 0 r (isub r 1) = some states ∧
      DrawCircle x y r = some pts ∧
      pts = states.flatMap (CircleState.points x y) ∧
      (∀ s ∈ states,
        s.d = r * r + r - 1 - (s.offsetx * s.offsetx + s.offsety * s.offsety)) ∧
      (∀ p ∈ pts, ∃ a b : Int, p = ⟨x + a, y + b⟩ ∧
        (r * r - r < a * a + b * b ∧ a * a + b * b ≤ r * r + r) ∧
        (((r : ℚ) - 1 / 2) ^ 2 < (a : ℚ) ^ 2 + (b : ℚ) ^ 2 ∧
          (a : ℚ) ^ 2 + (b : ℚ) ^ 2 < ((r : ℚ) + 1 / 2) ^ 2)) := by
  obtain ⟨states, hs, _, hinv⟩ := circleLoopStates_run r hr hr2
  refine ⟨states, states.flatMap (CircleState.points x y), hs, ?_, rfl, ?_, ?_⟩
  · rw [DrawCircle, DrawCircleLoop_eq_states, hs]
    rfl
  · intro s hmem
    exact (hinv s hmem).2.2.2.1
  · intro p hp
    obtain ⟨s, hmem, hps⟩ := List.mem_flatMap.mp hp
    obtain ⟨a, b, rfl, h1, h2⟩ :=
      points_in_ring x y r s (hinv s hmem) hx1 hx2 hy1 hy2 p hps
    refine ⟨a, b, rfl, ⟨h1, h2⟩, ?_, ?_⟩
    · have : ((r * r - r + 1 : ℤ) : ℚ) ≤ ((a * a + b * b : ℤ) : ℚ) := by
        exact_mod_cast (by omega : r * r - r + 1 ≤ a * a + b * b)
      push_cast at this
      nlinarith
    · have : ((a * a + b * b : ℤ) : ℚ) ≤ ((r * r + r : ℤ) : ℚ) := by exact_mod_cast h2
      push_cast at this
      nlinarith

theorem drawCircle_points_in_ring_witness :
    ∃ (states : List CircleState) (pts : List SDL_Point),
      circleLoopStates 80 ((80 : Int) + 1).toNat 0 80 (isub 80 1) = some states ∧
      DrawCircle 160 520 80 = some pts ∧
      pts = states.flatMap (CircleState.points 160 520) ∧
      (∀ s ∈ states,
        s.d = 80 * 80 + 80 - 1 - (s.offsetx * s.offsetx + s.offsety * s.offsety)) ∧
      (∀ p ∈ pts, ∃ a b : Int, p = ⟨160 + a, 520 + b⟩ ∧
        (80 * 80 - 80 < a * a + b * b ∧ a * a + b * b ≤ 80 * 80 + 80) ∧
        ((((80 : Int) : ℚ) - 1 / 2) ^ 2 < (a : ℚ) ^ 2 + (b : ℚ) ^ 2 ∧
          (a : ℚ) ^ 2 + (b : ℚ) ^ 2 < (((80 : Int) : ℚ) + 1 / 2) ^ 2)) :=
  drawCircle_points_in_ring 160 520 80 (by decide) (by decide) (by decide) (by decide)
    (by decide) (by decide)

/-- An integer whose square is below `(n + 1)^2` is at most `n`. -/
theorem le_of_mul_self_lt (m n : Int) (hm : 0 ≤ m) (hn : 0 ≤ n)
    (h : m * m < (n + 1) * (n + 1)) : m ≤ n := by
  by_contra hc
  have : n + 1 ≤ m := by omega
  nlinarith

/-- On its first visit to a column the loop is at the top of the disc:
`d < 2 * offsetx + 2 * offsety + 1` in every state of the invariant. -/
theorem circleInv_gap (r : Int) (s : CircleState) (h : CircleInv r s) :
    s.d < 2 * s.offsetx + 2 * s.offsety + 1 := by
  obtain ⟨a, b, c, e, f, g⟩ := h
  by_contra hc
  have h1 : s.offsetx + s.offsety ≤ r - 2 := by omega
  have h2 : 0 ≤ s.offsetx + s.offsety := by omega
  have h3 : s.offsetx * s.offsetx + s.offsety * s.offsety ≤ (r - 2) * (r - 2) := by
    have : 0 ≤ s.offsetx * s.offsety := by
      apply mul_nonneg a (by omega)
    nlinarith
  have h4 : 5 * r - 5 ≤ s.d := by nlinarith
  omega

/-- Rows still to be filled when the loop is about to run from the state
`(ox, oy, d)`: those strictly above `ox` up to `oy`, and row `ox` itself when
`d < 2 * oy`.  Every point of the disc in such a row, given by its
non-negative offsets `m` (column) and `n` (row), is reached by a later state,
either as row `offsetx` with half-width `offsety` or as row `offsety` with
half-width `offsetx`. -/
theorem idealCircleStates_complete (r : Int) (fuel : Nat) :
    ∀ (ox oy d : Int) (sts : List CircleState), CircleInv r ⟨ox, oy, d⟩ →
      idealCircleStates r fuel ox oy d = some sts →
      ∀ m n : Int, 0 ≤ m → 0 ≤ n → m * m + n * n ≤ r * r + r →
        ((ox < n ∧ n ≤ oy) ∨ (n = ox ∧ d < 2 * oy)) →
        ∃ s ∈ sts, (n = s.offsetx ∧ m ≤ s.offsety) ∨ (n = s.offsety ∧ m ≤ s.offsetx) := by
  induction fuel with
  | zero =>
    intro ox oy d sts hinv h
    simp only [idealCircleStates] at h
    have hg : oy ≥ ox := hinv.2.1
    simp [hg] at h
  | succ k ih =>
    intro ox oy d sts hinv h m n hm hn hdisc hrow
    have hg : oy ≥ ox := hinv.2.1
    obtain ⟨a, b, c, e, f, g⟩ := hinv
    simp only at a b c e f g
    have hinv : CircleInv r ⟨ox, oy, d⟩ := ⟨a, b, c, e, f, g⟩
    simp only [idealCircleStates, if_pos hg] at h
    obtain ⟨more, hmore, rfl⟩ := Option.map_eq_some'.mp h
    -- the row of the current state with its full width
    have hfirst : n = ox → d < 2 * oy → m ≤ oy := by
      intro h1 h2
      subst h1
      apply le_of_mul_self_lt m oy hm (by omega)
      nlinarith
    -- the top row of the current state when the loop is about to leave it
    have htop : n = oy → d < 2 * ox → m ≤ ox := by
      intro h1 h2
      subst h1
      apply le_of_mul_self_lt m ox hm a
      nlinarith
    rcases hrow with ⟨hlo, hhi⟩ | ⟨hn0, hd⟩
    swap
    · exact ⟨⟨ox, oy, d⟩, List.mem_cons_self _ _, Or.inl ⟨hn0, hfirst hn0 hd⟩⟩
    split_ifs at hmore with h1 h2
    · -- offsetx advances
      have hinv2 := circleInv_step1 r ox oy d hinv h1 (by omega)
      have hgap := circleInv_gap r _ hinv
      simp only at hgap
      obtain ⟨s, hs, hcov⟩ := ih _ _ _ more hinv2 hmore m n hm hn hdisc (by omega)
      exact ⟨s, List.mem_cons_of_mem _ hs, hcov⟩
    · -- offsety retreats
      by_cases htopn : n = oy
      · exact ⟨⟨ox, oy, d⟩, List.mem_cons_self _ _, Or.inr ⟨htopn, htop htopn (by omega)⟩⟩
      · have hinv2 := circleInv_step2 r ox oy d hinv h2 (by omega)
        obtain ⟨s, hs, hcov⟩ := ih _ _ _ more hinv2 hmore m n hm hn hdisc (by omega)
        exact ⟨s, List.mem_cons_of_mem _ hs, hcov⟩
    · -- diagonal step
      by_cases htopn : n = oy
      · exact ⟨⟨ox, oy, d⟩, List.mem_cons_self _ _, Or.inr ⟨htopn, htop htopn (by omega)⟩⟩
      · have hinv2 := circleInv_step3 r ox oy d hinv h1 (by omega)
        obtain ⟨s, hs, hcov⟩ := ih _ _ _ more hinv2 hmore m n hm hn hdisc (by omega)
        exact ⟨s, List.mem_cons_of_mem _ hs, hcov⟩

/-- The pixels covered by the four lines of a state, by their offsets from the
centre, when the circle fits into the `int` range around its centre. -/
theorem lines_cover_iff (x y r : Int) (s : CircleState) (hx : 0 ≤ s.offsetx)
    (hxy : s.offsetx ≤ s.offsety) (hyr : s.offsety ≤ r)
    (hx1 : -2147483648 ≤ x - r) (hx2 : x + r ≤ 2147483647)
    (hy1 : -2147483648 ≤ y - r) (hy2 : y + r ≤ 2147483647) (p : SDL_Point) :
    (∃ l ∈ s.lines x y, l.covers p) ↔
      ((|p.y - y| = s.offsetx ∧ |p.x - x| ≤ s.offsety) ∨
       (|p.y - y| = s.offsety ∧ |p.x - x| ≤ s.offsetx)) := by
  rw [lines_eq_exact x y r s hx hxy hyr hx1 hx2 hy1 hy2]
  have hy : 0 ≤ s.offsety := by omega
  have e1 : min (x - s.offsety) (x + s.offsety) = x - s.offsety := min_eq_left (by omega)
  have e2 : max (x - s.offsety) (x + s.offsety) = x + s.offsety := max_eq_right (by omega)
  have e3 : min (x - s.offsetx) (x + s.offsetx) = x - s.offsetx := min_eq_left (by omega)
  have e4 : max (x - s.offsetx) (x + s.offsetx) = x + s.offsetx := max_eq_right (by omega)
  simp only [List.mem_cons, List.mem_singleton, List.not_mem_nil, or_false,
    exists_eq_or_imp, exists_eq_left, Line.covers, e1, e2, e3, e4, true_and]
  rw [abs_le]
  have hy1 := abs_cases (p.y - y)
  have hx1 := abs_le (a := p.x - x) (b := s.offsetx)
  constructor
  · rintro (⟨h1, h2, h3⟩ | ⟨h1, h2, h3⟩ | ⟨h1, h2, h3⟩ | ⟨h1, h2, h3⟩)
    · left; refine ⟨?_, by omega, by omega⟩
      rw [abs_of_nonneg (by omega)]; omega
    · right; refine ⟨?_, hx1.mpr ⟨by omega, by omega⟩⟩
      rw [abs_of_nonneg (by omega)]; omega
    · right; refine ⟨?_, hx1.mpr ⟨by omega, by omega⟩⟩
      rw [abs_of_nonpos (by omega)]; omega
    · left; refine ⟨?_, by omega, by omega⟩
      rw [abs_of_nonpos (by omega)]; omega
  · rintro (⟨h1, h2, h3⟩ | ⟨h1, h2⟩)
    · rcases hy1 with ⟨h4, _⟩ | ⟨h4, _⟩
      · left; exact ⟨by omega, by omega, by omega⟩
      · right; right; right; exact ⟨by omega, by omega, by omega⟩
    · have := hx1.mp h2
      rcases hy1 with ⟨h4, _⟩ | ⟨h4, _⟩
      · right; left; exact ⟨by omega, by omega, by omega⟩
      · right; right; left; exact ⟨by omega, by omega, by omega⟩

/-- Every line of a state is horizontal. -/
theorem lines_horizontal (x y : Int) (s : CircleState) (l : Line) (hl : l ∈ s.lines x y) :
    l.y1 = l.y2 := by
  simp only [CircleState.lines, List.mem_cons, List.mem_singleton, List.not_mem_nil,
    or_false] at hl
  rcases hl with rfl | rfl | rfl | rfl <;> rfl

/-- The filled circle of radius 0 is drawn in one iteration. -/
theorem drawFilledCircle_zero (x y : Int) :
    DrawFilledCircle x y 0 = some (CircleState.lines x y ⟨0, 0, -1⟩) := by
  have e1 : isub 0 1 = -1 := by decide
  have e2 : imul 2 0 = 0 := by decide
  have e3 : isub 0 0 = 0 := by decide
  simp [DrawFilledCircle, DrawFilledCircleLoop, CircleState.lines, e1, e2, e3]

/-- The outline of radius 0 is drawn in one iteration. -/
theorem drawCircle_zero (x y : Int) :
    DrawCircle x y 0 = some (CircleState.points x y ⟨0, 0, -1⟩) := by
  have e1 : isub 0 1 = -1 := by decide
  have e2 : imul 2 0 = 0 := by decide
  have e3 : isub 0 0 = 0 := by decide
  simp [DrawCircle, DrawCircleLoop, CircleState.points, e1, e2, e3]

/-- The lines of `DrawFilledCircle` cover the disc `a*a + b*b ≤ r*r + r` and
nothing else. -/
theorem drawFilledCircle_lines (x y r : Int) (hr : 0 ≤ r) (hr2 : r < 1073741824)
    (hx1 : -2147483648 ≤ x - r) (hx2 : x + r ≤ 2147483647)
    (hy1 : -2147483648 ≤ y - r) (hy2 : y + r ≤ 2147483647) :
    ∃ lines : List Line, DrawFilledCircle x y r = some lines ∧
      (∀ l ∈ lines, l.y1 = l.y2) ∧
      (∀ p : SDL_Point, (∃ l ∈ lines, l.covers p) ↔
        (p.x - x) * (p.x - x) + (p.y - y) * (p.y - y) ≤ r * r + r) := by
  rcases eq_or_lt_of_le hr with h0 | hpos
  · subst h0
    refine ⟨_, drawFilledCircle_zero x y, fun l hl => lines_horizontal x y _ l hl, ?_⟩
    intro p
    rw [lines_cover_iff x y 0 ⟨0, 0, -1⟩ (le_refl _) (le_refl _) (le_refl _) hx1 hx2 hy1 hy2 p]
    simp only [abs_eq_zero, abs_nonpos_iff, or_self]
    constructor
    · rintro ⟨h1, h2⟩
      rw [h1, h2]
      simp
    · intro h
      have h1 : 0 ≤ (p.x - x) * (p.x - x) := mul_self_nonneg _
      have h2 : 0 ≤ (p.y - y) * (p.y - y) := mul_self_nonneg _
      have h3 : (p.x - x) * (p.x - x) = 0 := by simp at h; omega
      have h4 : (p.y - y) * (p.y - y) = 0 := by simp at h; omega
      exact ⟨mul_self_eq_zero.mp h4, mul_self_eq_zero.mp h3⟩
  · have hr1 : 1 ≤ r := by omega
    obtain ⟨states, hs, hsi, hinv⟩ := circleLoopStates_run r hr1 hr2
    have hcomp := idealCircleStates_complete r _ 0 r (r - 1) states (circleInv_initial r hr1) hsi
    refine ⟨states.flatMap (CircleState.lines x y), ?_, ?_, ?_⟩
    · rw [DrawFilledCircle, DrawFilledCircleLoop_eq_states, hs]
      rfl
    · intro l hl
      obtain ⟨s, _, hls⟩ := List.mem_flatMap.mp hl
      exact lines_horizontal x y s l hls
    · intro p
      have ha := abs_mul_abs_self (p.x - x)
      have hb := abs_mul_abs_self (p.y - y)
      constructor
      · rintro ⟨l, hl, hcov⟩
        obtain ⟨s, hmem, hls⟩ := List.mem_flatMap.mp hl
        obtain ⟨i1, i2, i3, i4, i5, i6⟩ := hinv s hmem
        have hc := (lines_cover_iff x y r s i1 i2 i3 hx1 hx2 hy1 hy2 p).mp ⟨l, hls, hcov⟩
        rw [← ha, ← hb]
        have hna := abs_nonneg (p.x - x)
        rcases hc with ⟨h1, h2⟩ | ⟨h1, h2⟩
        · rw [h1]; nlinarith
        · rw [h1]; nlinarith
      · intro hdisc
        rw [← ha, ← hb] at hdisc
        have hna := abs_nonneg (p.x - x)
        have hnb := abs_nonneg (p.y - y)
        have hrow : |p.y - y| ≤ r := by
          apply le_of_mul_self_lt _ _ hnb hr
          nlinarith [mul_self_nonneg |p.x - x|]
        have hrow2 : (0 < |p.y - y| ∧ |p.y - y| ≤ r) ∨ (|p.y - y| = 0 ∧ r - 1 < 2 * r) := by
          rcases eq_or_lt_of_le hnb with h | h
          · right; exact ⟨h.symm, by omega⟩
          · left; exact ⟨h, hrow⟩
        obtain ⟨s, hmem, hcov⟩ := hcomp |p.x - x| |p.y - y| hna hnb hdisc hrow2
        obtain ⟨i1, i2, i3, i4, i5, i6⟩ := hinv s hmem
        obtain ⟨l, hl, hlc⟩ := (lines_cover_iff x y r s i1 i2 i3 hx1 hx2 hy1 hy2 p).mpr hcov
        exact ⟨l, List.mem_flatMap.mpr ⟨s, hmem, hl⟩, hlc⟩

/-- Every point of the outline lies in the disc `a*a + b*b ≤ r*r + r`. -/
theorem drawCircle_in_disc (x y r : Int) (hr : 0 ≤ r) (hr2 : r < 1073741824)
    (hx1 : -2147483648 ≤ x - r) (hx2 : x + r ≤ 2147483647)
    (hy1 : -2147483648 ≤ y - r) (hy2 : y + r ≤ 2147483647) (pts : List SDL_Point)
    (h : DrawCircle x y r = some pts) (p : SDL_Point) (hp : p ∈ pts) :
    (p.x - x) * (p.x - x) + (p.y - y) * (p.y - y) ≤ r * r + r := by
  rcases eq_or_lt_of_le hr with h0 | hpos
  · subst h0
    rw [drawCircle_zero] at h
    simp only [Option.some.injEq] at h
    subst h
    have ex : iadd x 0 = x := by rw [iadd_eq x 0 (by omega) (by omega)]; simp
    have ex2 : isub x 0 = x := by rw [isub_eq x 0 (by omega) (by omega)]; simp
    have ey : iadd y 0 = y := by rw [iadd_eq y 0 (by omega) (by omega)]; simp
    have ey2 : isub y 0 = y := by rw [isub_eq y 0 (by omega) (by omega)]; simp
    simp only [CircleState.points, ex, ex2, ey, ey2, List.mem_cons, List.mem_singleton,
      List.not_mem_nil, or_false, or_self] at hp
    subst hp
    simp
  · have hr1 : 1 ≤ r := by omega
    obtain ⟨states, hs, _, hinv⟩ := circleLoopStates_run r hr1 hr2
    rw [DrawCircle, DrawCircleLoop_eq_states, hs] at h
    simp only [Option.map_some', Option.some.injEq] at h
    subst h
    obtain ⟨s, hmem, hps⟩ := List.mem_flatMap.mp hp
    obtain ⟨a, b, rfl, _, h2⟩ := points_in_ring x y r s (hinv s hmem) hx1 hx2 hy1 hy2 p hps
    simpa using h2

/-- C6 fails as stated: with the centre at `x = 2147483647` (the largest `int`)
and radius 1, `DrawFilledCircle` computes the right end `x + offsety` of its
lines in 32-bit `int` and gets `-2147483648`; no line covers the centre pixel
`(2147483647, 0)`, a point of the disc. -/
theorem drawFilledCircle_wraps_at_int_max :
    ∃ lines : List Line, DrawFilledCircle 2147483647 0 1 = some lines ∧
      lines = [⟨2147483646, 0, -2147483648, 0⟩, ⟨2147483647, 1, 2147483647, 1⟩,
        ⟨2147483647, -1, 2147483647, -1⟩, ⟨2147483646, 0, -2147483648, 0⟩,
        ⟨2147483646, 1, -2147483648, 1⟩, ⟨2147483646, 1, -2147483648, 1⟩,
        ⟨2147483646, -1, -2147483648, -1⟩, ⟨2147483646, -1, -2147483648, -1⟩] ∧
      ¬ ((∃ l ∈ lines, l.covers ⟨2147483647, 0⟩) ↔
        ((2147483647 : Int) - 2147483647) * (2147483647 - 2147483647)
          + ((0 : Int) - 0) * (0 - 0) ≤ 1 * 1 + 1) := by
  refine ⟨_, by decide, rfl, ?_⟩
  decide

/-- C6, amended. `DrawFilledCircle` rasterises the filled circle with no holes
and no overshoot: for every radius `0 ≤ r < 2^30` and every centre for which
`x - r`, `x + r`, `y - r` and `y + r` are `int`s, the loop ends, every line
drawn is horizontal, a pixel `p` lies on one of the lines exactly when
`(p.x - x)^2 + (p.y - y)^2 ≤ r*r + r`, and every point of the outline that
`DrawCircle` draws for the same centre and radius lies on one of the lines. -/
theorem drawFilledCircle_covers_disc (x y r : Int) (hr : 0 ≤ r) (hr2 : r < 1073741824)
    (hx1 : -2147483648 ≤ x - r) (hx2 : x + r ≤ 2147483647)
    (hy1 : -2147483648 ≤ y - r) (hy2 : y + r ≤ 2147483647) :
    ∃ lines : List Line, DrawFilledCircle x y r = some lines ∧
      (∀ l ∈ lines, l.y1 = l.y2) ∧
      (∀ p : SDL_Point, (∃ l ∈ lines, l.covers p) ↔
        (p.x - x) * (p.x - x) + (p.y - y) * (p.y - y) ≤ r * r + r) ∧
      (∀ pts : List SDL_Point, DrawCircle x y r = some pts →
        ∀ p ∈ pts, ∃ l ∈ lines, l.covers p) := by
  obtain ⟨lines, h1, h2, h3⟩ := drawFilledCircle_lines x y r hr hr2 hx1 hx2 hy1 hy2
  exact ⟨lines, h1, h2, h3, fun pts hpts p hp =>
    (h3 p).mpr (drawCircle_in_disc x y r hr hr2 hx1 hx2 hy1 hy2 pts hpts p hp)⟩

theorem drawFilledCircle_covers_disc_witness :
    ∃ lines : List Line, DrawFilledCircle 160 520 30 = some lines ∧
      (∀ l ∈ lines, l.y1 = l.y2) ∧
      (∀ p : SDL_Point, (∃ l ∈ lines, l.covers p) ↔
        (p.x - 160) * (p.x - 160) + (p.y - 520) * (p.y - 520) ≤ 30 * 30 + 30) ∧
      (∀ pts : List SDL_Point, DrawCircle 160 520 30 = some pts →
        ∀ p ∈ pts, ∃ l ∈ lines, l.covers p) :=
  drawFilledCircle_covers_disc 160 520 30 (by decide) (by decide) (by decide) (by decide)
    (by decide) (by decide)

/-! ## Knob position -/

/-- Truncation toward zero of a number of magnitude below `D + 1`. -/
theorem truncate_abs_le (x : ℚ) (D : ℤ) (h : |x| < (D : ℚ) + 1) : |truncate x| ≤ D := by
  have hx := abs_lt.mp h
  unfold truncate
  split_ifs with h0
  · have h1 : (0 : ℤ) ≤ ⌊x⌋ := Int.floor_nonneg.mpr h0
    have h2 : ⌊x⌋ < D + 1 := by
      rw [Int.floor_lt]
      push_cast
      exact hx.2
    rw [abs_of_nonneg h1]
    omega
  · have h0 : x < 0 := not_le.mp h0
    have h1 : ⌈x⌉ ≤ 0 := by
      rw [Int.ceil_le]
      exact_mod_cast h0.le
    have h2 : -(D + 1) < ⌈x⌉ := by
      rw [Int.lt_ceil]
      push_cast
      linarith [hx.1]
    rw [abs_of_nonpos h1]
    omega

theorem truncate_intCast (n : ℤ) : truncate (n : ℚ) = n := by
  unfold truncate
  split_ifs <;> simp

/-- The cast of a float of magnitude below `D + 1`, for `D` below `2^31`. -/
theorem floatToInt_of_abs_lt (x : ℚ) (D : ℤ) (hD : D ≤ 2147483647) (h : |x| < (D : ℚ) + 1) :
    ∃ t : ℤ, floatToInt x = some t ∧ |t| ≤ D := by
  have ht := truncate_abs_le x D h
  have := abs_le.mp ht
  refine ⟨truncate x, ?_, ht⟩
  unfold floatToInt
  rw [if_pos ⟨by omega, by omega⟩]

/-- Twice an integer with 24 significant bits is a binary32 number. -/
theorem roundF32_double (m : ℤ) (h1 : 8388608 ≤ |m|) (h2 : |m| < 16777216) :
    roundF32 ((2 * m : ℤ) : ℚ) = ((2 * m : ℤ) : ℚ) := by
  have hq1 : (8388608 : ℚ) ≤ |(m : ℚ)| := by exact_mod_cast h1
  have hq2 : |(m : ℚ)| < 16777216 := by exact_mod_cast h2
  have habs : |((2 * m : ℤ) : ℚ)| = 2 * |(m : ℚ)| := by
    push_cast
    rw [abs_mul, abs_of_pos (by norm_num : (0 : ℚ) < 2)]
  have hm : roundNearestEven (((2 * m : ℤ) : ℚ) / 2 ^ ((24 : ℤ) - 23)) = m := by
    have : ((2 * m : ℤ) : ℚ) / 2 ^ ((24 : ℤ) - 23) = (m : ℚ) := by
      push_cast
      norm_num
    rw [this, roundNearestEven_intCast]
  rw [roundF32_eq_of _ 24 m (by rw [habs]; norm_num; linarith) (by rw [habs]; norm_num; linarith)
    (by norm_num) hm]
  push_cast
  norm_num
  ring

/-- The `int -> float` conversion of `2^24 + 1` rounds down to `2^24`. -/
theorem intToFloat_16777217 : intToFloat 16777217 = 16777216 := by
  unfold intToFloat
  have hm : roundNearestEven (((16777217 : ℤ) : ℚ) / 2 ^ ((24 : ℤ) - 23)) = 8388608 := by
    have ht : ((16777217 : ℤ) : ℚ) / 2 ^ ((24 : ℤ) - 23) = 16777217 / 2 := by norm_num
    have hf : ⌊(16777217 / 2 : ℚ)⌋ = 8388608 := by
      rw [Int.floor_eq_iff]; norm_num
    rw [ht]
    unfold roundNearestEven
    rw [hf]
    norm_num
  rw [roundF32_eq_of _ 24 8388608 (by norm_num [abs_of_pos]) (by norm_num [abs_of_pos])
    (by norm_num) hm]
  norm_num

/-- The `int -> float` conversion of `2^24 + 3` rounds up to `2^24 + 4`. -/
theorem intToFloat_16777219 : intToFloat 16777219 = 16777220 := by
  unfold intToFloat
  have hm : roundNearestEven (((16777219 : ℤ) : ℚ) / 2 ^ ((24 : ℤ) - 23)) = 8388610 := by
    have ht : ((16777219 : ℤ) : ℚ) / 2 ^ ((24 : ℤ) - 23) = 16777219 / 2 := by norm_num
    have hf : ⌊(16777219 / 2 : ℚ)⌋ = 8388609 := by
      rw [Int.floor_eq_iff]; norm_num
    rw [ht]
    unfold roundNearestEven
    rw [hf]
    norm_num
  rw [roundF32_eq_of _ 24 8388610 (by norm_num [abs_of_pos]) (by norm_num [abs_of_pos])
    (by norm_num) hm]
  norm_num

/-- The float that a travel below `2^24 + 3` converts to: a binary32 number
between 0 and the travel, zero or at least 1, whose negation is a binary32
number too. -/
theorem intToFloat_travel (D : ℤ) (h0 : 0 ≤ D) (h1 : D < 16777219) :
    0 ≤ intToFloat D ∧ intToFloat D ≤ D ∧ (intToFloat D = 0 ∨ 1 ≤ intToFloat D) ∧
    roundF32 (intToFloat D) = intToFloat D ∧ roundF32 (-intToFloat D) = -intToFloat D := by
  by_cases hs : D < 16777216
  · have hi : intToFloat D = D := by
      unfold intToFloat
      apply roundF32_intCast
      rw [abs_lt]
      constructor <;> omega
    have hneg : roundF32 (-(D : ℚ)) = -(D : ℚ) := by
      have := roundF32_intCast (-D) (by rw [abs_lt]; constructor <;> omega)
      push_cast at this
      exact this
    have hpos : roundF32 (D : ℚ) = D :=
      roundF32_intCast D (by rw [abs_lt]; constructor <;> omega)
    rw [hi]
    refine ⟨by exact_mod_cast h0, le_refl _, ?_, hpos, hneg⟩
    rcases eq_or_lt_of_le h0 with h | h
    · left; rw [← h]; simp
    · right; exact_mod_cast (by omega : (1 : ℤ) ≤ D)
  · have e1 := roundF32_double 8388608 (by norm_num) (by norm_num)
    have e2 := roundF32_double (-8388608) (by norm_num) (by norm_num)
    have e3 := roundF32_double 8388609 (by norm_num) (by norm_num)
    have e4 := roundF32_double (-8388609) (by norm_num) (by norm_num)
    norm_num at e1 e2 e3 e4
    have hcases : D = 16777216 ∨ D = 16777217 ∨ D = 16777218 := by omega
    rcases hcases with h | h | h
    · subst h
      have hi : intToFloat 16777216 = 16777216 := by
        unfold intToFloat
        norm_num
        exact e1
      rw [hi]
      exact ⟨by norm_num, by norm_num, Or.inr (by norm_num), e1, e2⟩
    · subst h
      rw [intToFloat_16777217]
      exact ⟨by norm_num, by norm_num, Or.inr (by norm_num), e1, e2⟩
    · subst h
      have hi : intToFloat 16777218 = 16777218 := by
        unfold intToFloat
        norm_num
        exact e3
      rw [hi]
      exact ⟨by norm_num, by norm_num, Or.inr (by norm_num), e3, e4⟩

/-- The values `handleStickMovement` stores for raw values from -32767 to
32767: zero, or a value of magnitude at least 1/16 that is 1, -1 or of
magnitude clearly below 1. -/
theorem deadzoneValue_cases (raw : Int) (hlo : -32767 ≤ raw) (hhi : raw ≤ 32767) :
    deadzoneValue raw = 0 ∨
    (1 / 16 ≤ |deadzoneValue raw| ∧
      (deadzoneValue raw = 1 ∨ deadzoneValue raw = -1 ∨
        |deadzoneValue raw| ≤ 32766 / 32767 * (1 + 1 / 2 ^ 24))) := by
  by_cases hin : |raw| ≤ 3276
  · left; exact deadzoneValue_inside raw (by omega) hhi hin
  right
  have hout : ¬ |normalizeAxis raw| < floatLit (1 / 10) := by
    rw [deadzone_test_iff raw (by omega) hhi]
    exact hin
  rw [floatLit_tenth] at hout
  rw [deadzoneValue_outside raw (by omega) hhi (by omega)]
  refine ⟨by linarith [not_lt.mp hout], ?_⟩
  by_cases h1 : raw = 32767
  · left
    subst h1
    rw [normalizeAxis_eq 32767 (by norm_num) (by norm_num)]
    have := roundF32_intCast 1 (by norm_num)
    norm_num at this ⊢
    exact this
  by_cases h2 : raw = -32767
  · right; left
    subst h2
    rw [normalizeAxis_eq (-32767) (by norm_num) (by norm_num)]
    have := roundF32_intCast (-1) (by norm_num)
    norm_num at this ⊢
    exact this
  right; right
  rw [abs_le]
  rcases le_total 0 raw with h0 | h0
  · have hb := normalizeAxis_bounds_nonneg raw h0 hhi
    have hq : (0 : ℚ) ≤ (raw : ℚ) := by exact_mod_cast h0
    have hq2 : (raw : ℚ) ≤ 32766 := by
      have : raw ≤ (32766 : ℤ) := by omega
      exact_mod_cast this
    constructor <;> linarith [hb.1, hb.2]
  · have hb := normalizeAxis_bounds_nonpos raw (by omega) h0
    have hq : (raw : ℚ) ≤ 0 := by exact_mod_cast h0
    have hq2 : (-32766 : ℚ) ≤ (raw : ℚ) := by
      have : (-32766 : ℤ) ≤ raw := by omega
      exact_mod_cast this
    constructor <;> linarith [hb.1, hb.2]

/-- The product of a stored value and the converted travel stays within the
travel. -/
theorem fmul_travel_bound (xv Df : ℚ)
    (hx : xv = 0 ∨ (1 / 16 ≤ |xv| ∧ (xv = 1 ∨ xv = -1 ∨ |xv| ≤ 32766 / 32767 * (1 + 1 / 2 ^ 24))))
    (h0 : 0 ≤ Df) (hD : Df = 0 ∨ 1 ≤ Df) (hp : roundF32 Df = Df) (hn : roundF32 (-Df) = -Df) :
    |fmul xv Df| ≤ Df := by
  unfold fmul
  rcases hx with hx | ⟨hlow, hx | hx | hx⟩
  · subst hx
    simp [roundF32_zero, h0]
  · subst hx
    rw [one_mul, hp, abs_of_nonneg h0]
  · subst hx
    rw [neg_one_mul, hn, abs_neg, abs_of_nonneg h0]
  · rcases hD with hD | hD
    · subst hD
      simp [roundF32_zero]
    · have hprod : |xv * Df| = |xv| * Df := by rw [abs_mul, abs_of_nonneg h0]
      have hbig : (2 : ℚ) ^ (-126 : ℤ) ≤ |xv * Df| := by
        rw [hprod]
        calc (2 : ℚ) ^ (-126 : ℤ) ≤ 1 / 16 := by
              rw [zpow_neg, ← one_div]
              apply one_div_le_one_div_of_le (by norm_num)
              norm_num
          _ ≤ |xv| * 1 := by linarith
          _ ≤ |xv| * Df := mul_le_mul_of_nonneg_left hD (abs_nonneg xv)
      have herr := roundF32_rel_error (xv * Df) hbig
      have h3 : |roundF32 (xv * Df)| ≤ |roundF32 (xv * Df) - xv * Df| + |xv * Df| := by
        have := abs_add (roundF32 (xv * Df) - xv * Df) (xv * Df)
        simpa using this
      have h4 : |xv| * Df ≤ 32766 / 32767 * (1 + 1 / 2 ^ 24) * Df :=
        mul_le_mul_of_nonneg_right hx h0
      rw [hprod] at herr h3
      nlinarith

/-- The stick-level statement behind C9. -/
theorem stick_position_bound (st : AnalogStick) (rawX rawY : Int)
    (hr : 0 ≤ st.radius - st.stickRadius) (hD : st.radius - st.stickRadius < 16777219)
    (hcx1 : -2147483648 ≤ st.centerX - (st.radius - st.stickRadius))
    (hcx2 : st.centerX + (st.radius - st.stickRadius) ≤ 2147483647)
    (hcy1 : -2147483648 ≤ st.centerY - (st.radius - st.stickRadius))
    (hcy2 : st.centerY + (st.radius - st.stickRadius) ≤ 2147483647)
    (hxlo : -32767 ≤ rawX) (hxhi : rawX ≤ 32767) (hylo : -32767 ≤ rawY) (hyhi : rawY ≤ 32767) :
    knobWithinBase ((st.setXValue (deadzoneValue rawX)).setYValue (deadzoneValue rawY)) ∧
    (|rawX| ≤ 3276 → |rawY| ≤ 3276 →
      ((st.setXValue (deadzoneValue rawX)).setYValue (deadzoneValue rawY)).getStickPosition
        = some ⟨st.centerX, st.centerY⟩) := by
  have hsub : isub st.radius st.stickRadius = st.radius - st.stickRadius :=
    isub_eq _ _ (by omega) (by omega)
  obtain ⟨t0, t1, t2, t3, t4⟩ := intToFloat_travel (st.radius - st.stickRadius) hr hD
  have hbx := fmul_travel_bound (deadzoneValue rawX) _ (deadzoneValue_cases rawX hxlo hxhi)
    t0 t2 t3 t4
  have hby := fmul_travel_bound (deadzoneValue rawY) _ (deadzoneValue_cases rawY hylo hyhi)
    t0 t2 t3 t4
  obtain ⟨tx, htx, hax⟩ := floatToInt_of_abs_lt _ (st.radius - st.stickRadius) (by omega)
    (by linarith : |fmul (deadzoneValue rawX) (intToFloat (st.radius - st.stickRadius))|
      < ((st.radius - st.stickRadius : ℤ) : ℚ) + 1)
  obtain ⟨ty, hty, hay⟩ := floatToInt_of_abs_lt _ (st.radius - st.stickRadius) (by omega)
    (by linarith : |fmul (deadzoneValue rawY) (intToFloat (st.radius - st.stickRadius))|
      < ((st.radius - st.stickRadius : ℤ) : ℚ) + 1)
  have hax2 := abs_le.mp hax
  have hay2 := abs_le.mp hay
  have hpos : ((st.setXValue (deadzoneValue rawX)).setYValue
      (deadzoneValue rawY)).getStickPosition = some ⟨st.centerX + tx, st.centerY + ty⟩ := by
    simp only [AnalogStick.getStickPosition, AnalogStick.setXValue, AnalogStick.setYValue,
      hsub, htx, hty]
    rw [iadd_eq st.centerX tx (by omega) (by omega), iadd_eq st.centerY ty (by omega) (by omega)]
  constructor
  · refine ⟨⟨st.centerX + tx, st.centerY + ty⟩, hpos, ?_, ?_⟩
    · simpa [AnalogStick.setXValue, AnalogStick.setYValue] using hax
    · simpa [AnalogStick.setXValue, AnalogStick.setYValue] using hay
  · intro h1 h2
    have zx : tx = 0 := by
      rw [deadzoneValue_inside rawX (by omega) hxhi h1] at htx
      simp [fmul, roundF32_zero, floatToInt, truncate] at htx
      exact htx.symm
    have zy : ty = 0 := by
      rw [deadzoneValue_inside rawY (by omega) hyhi h2] at hty
      simp [fmul, roundF32_zero, floatToInt, truncate] at hty
      exact hty.symm
    rw [hpos, zx, zy]
    simp

/-- Unfolding `getStickPosition` once both casts are known. -/
theorem getStickPosition_eq (st : AnalogStick) (dx dy : Int)
    (hx : floatToInt (fmul st.xValue (intToFloat (isub st.radius st.stickRadius))) = some dx)
    (hy : floatToInt (fmul st.yValue (intToFloat (isub st.radius st.stickRadius))) = some dy) :
    st.getStickPosition = some ⟨iadd st.centerX dx, iadd st.centerY dy⟩ := by
  unfold AnalogStick.getStickPosition
  rw [hx, hy]

theorem deadzoneValue_max : deadzoneValue 32767 = 1 := by
  rw [deadzoneValue_outside 32767 (by norm_num) (by norm_num) (by norm_num),
    normalizeAxis_eq 32767 (by norm_num) (by norm_num)]
  have := roundF32_intCast 1 (by norm_num)
  norm_num at this ⊢
  exact this

/-- At travel 16777219 the stored value 1 moves the knob by 16777220. -/
theorem wide_stick_offset_x :
    floatToInt (fmul 1 (intToFloat (isub 16777219 0))) = some 16777220 := by
  have hsub : isub 16777219 0 = 16777219 := by
    rw [isub_eq 16777219 0 (by norm_num) (by norm_num)]
    norm_num
  have hr : roundF32 16777220 = 16777220 := by
    have := roundF32_double 8388610 (by norm_num) (by norm_num)
    norm_num at this
    exact this
  rw [hsub, intToFloat_16777219]
  unfold fmul
  rw [one_mul, hr]
  have : (16777220 : ℚ) = ((16777220 : ℤ) : ℚ) := by norm_num
  unfold floatToInt
  rw [this, truncate_intCast, if_pos ⟨by norm_num, by norm_num⟩]

theorem wide_stick_offset_y :
    floatToInt (fmul 0 (intToFloat (isub 16777219 0))) = some 0 := by
  unfold fmul
  rw [zero_mul, roundF32_zero]
  have : (0 : ℚ) = ((0 : ℤ) : ℚ) := by norm_num
  unfold floatToInt
  rw [this, truncate_intCast, if_pos ⟨by norm_num, by norm_num⟩]

theorem wide_stick_position :
    ((handleStickMovement wideStickVisualizer SDL_CONTROLLER_AXIS_LEFTX
      32767).sticks 0).getStickPosition = some ⟨16777220, 0⟩ := by
  rw [handleStickMovement_leftX, deadzoneValue_max]
  have h := getStickPosition_eq ((wideStickVisualizer.sticks 0).setXValue 1) 16777220 0
    wide_stick_offset_x wide_stick_offset_y
  rw [h]
  have e1 : iadd ((wideStickVisualizer.sticks 0).setXValue 1).centerX 16777220 = 16777220 :=
    iadd_eq 0 16777220 (by norm_num) (by norm_num)
  have e2 : iadd ((wideStickVisualizer.sticks 0).setXValue 1).centerY 0 = 0 :=
    iadd_eq 0 0 (by norm_num) (by norm_num)
  rw [e1, e2]

/-- At travel 50 the stored value 1 moves the knob by 50. -/
theorem edge_stick_offset_x : floatToInt (fmul 1 (intToFloat (isub 80 30))) = some 50 := by
  have hsub : isub 80 30 = 50 := by
    rw [isub_eq 80 30 (by norm_num) (by norm_num)]
    norm_num
  have hi : intToFloat 50 = 50 := by
    have := roundF32_intCast 50 (by norm_num)
    simpa [intToFloat] using this
  have hr : roundF32 50 = 50 := by
    have := roundF32_intCast 50 (by norm_num)
    simpa using this
  rw [hsub, hi]
  unfold fmul
  rw [one_mul, hr]
  have : (50 : ℚ) = ((50 : ℤ) : ℚ) := by norm_num
  unfold floatToInt
  rw [this, truncate_intCast, if_pos ⟨by norm_num, by norm_num⟩]

theorem edge_stick_offset_y : floatToInt (fmul 0 (intToFloat (isub 80 30))) = some 0 := by
  unfold fmul
  rw [zero_mul, roundF32_zero]
  have : (0 : ℚ) = ((0 : ℤ) : ℚ) := by norm_num
  unfold floatToInt
  rw [this, truncate_intCast, if_pos ⟨by norm_num, by norm_num⟩]

theorem edge_stick_position :
    ((handleStickMovement edgeStickVisualizer SDL_CONTROLLER_AXIS_LEFTX
      32767).sticks 0).getStickPosition = some ⟨-2147483599, 0⟩ := by
  rw [handleStickMovement_leftX, deadzoneValue_max]
  have h := getStickPosition_eq ((edgeStickVisualizer.sticks 0).setXValue 1) 50 0
    edge_stick_offset_x edge_stick_offset_y
  rw [h]
  have e1 : iadd ((edgeStickVisualizer.sticks 0).setXValue 1).centerX 50 = -2147483599 := by
    decide
  have e2 : iadd ((edgeStickVisualizer.sticks 0).setXValue 1).centerY 0 = 0 := by
    decide
  rw [e1, e2]

/-- C9 fails as stated, in two ways that do not involve the raw value -32768.
A stick of radius 16777219 with knob radius 0 (so `radius ≥ stickRadius ≥ 0`)
whose x value was produced by `handleStickMovement` from the raw value `32767`
(normalised to exactly 1) has its knob at `centerX + 16777220`, outside the
bounding square of the base, because the conversion of the travel 16777219 to
`float` rounds up to 16777220.  A stick with the radii 80 and 30 of the layout
and `centerX = 2147483647` has its knob at `-2147483599` for the same raw
value, because `centerX + 50` is computed in 32-bit `int`. -/
theorem knob_leaves_wide_base :
    ((0 : Int) ≤ ((handleStickMovement wideStickVisualizer SDL_CONTROLLER_AXIS_LEFTX
        32767).sticks 0).stickRadius ∧
    ((handleStickMovement wideStickVisualizer SDL_CONTROLLER_AXIS_LEFTX
        32767).sticks 0).stickRadius ≤
      ((handleStickMovement wideStickVisualizer SDL_CONTROLLER_AXIS_LEFTX
        32767).sticks 0).radius ∧
    ((handleStickMovement wideStickVisualizer SDL_CONTROLLER_AXIS_LEFTX
        32767).sticks 0).xValue = 1 ∧
    ((handleStickMovement wideStickVisualizer SDL_CONTROLLER_AXIS_LEFTX
        32767).sticks 0).getStickPosition = some ⟨16777220, 0⟩ ∧
    ¬ knobWithinBase ((handleStickMovement wideStickVisualizer SDL_CONTROLLER_AXIS_LEFTX
        32767).sticks 0)) ∧
    (((handleStickMovement edgeStickVisualizer SDL_CONTROLLER_AXIS_LEFTX
        32767).sticks 0).getStickPosition = some ⟨-2147483599, 0⟩ ∧
    ¬ knobWithinBase ((handleStickMovement edgeStickVisualizer SDL_CONTROLLER_AXIS_LEFTX
        32767).sticks 0)) := by
  refine ⟨⟨?_, ?_, ?_, wide_stick_position, ?_⟩, edge_stick_position, ?_⟩
  · rw [handleStickMovement_leftX]
    simp [AnalogStick.setXValue, wideStickVisualizer, AnalogStick.new]
  · rw [handleStickMovement_leftX]
    simp [AnalogStick.setXValue, wideStickVisualizer, AnalogStick.new]
  · rw [handleStickMovement_leftX, deadzoneValue_max]
    rfl
  · rintro ⟨p, hp, hbx, _⟩
    rw [wide_stick_position] at hp
    simp only [Option.some.injEq] at hp
    subst hp
    rw [handleStickMovement_leftX] at hbx
    simp [AnalogStick.setXValue, wideStickVisualizer, AnalogStick.new] at hbx
  · rintro ⟨p, hp, hbx, _⟩
    rw [edge_stick_position] at hp
    simp only [Option.some.injEq] at hp
    subst hp
    rw [handleStickMovement_leftX] at hbx
    simp [AnalogStick.setXValue, edgeStickVisualizer, AnalogStick.new] at hbx

/-- C9, amended. The stick knob never leaves the base's bounding square when
the travel `radius - stickRadius` is below 16777219 and the square lies in the
`int` range: for a stick (left or right) with
`0 ≤ radius - stickRadius < 16777219`, with `centerX` and `centerY` plus and
minus the travel representable as `int`, whose x and y values were produced by
`handleStickMovement` from raw values between -32767 and 32767,
`getStickPosition` is within `radius - stickRadius` of the centre in each
coordinate, and it is the centre itself when both raw values are inside the
deadzone.  Nothing is said about the raw value -32768. -/
theorem knob_within_base_bounded_travel (v : ControllerVisualizer) (i : Fin 2)
    (rawX rawY : Int)
    (hxlo : -32767 ≤ rawX) (hxhi : rawX ≤ 32767) (hylo : -32767 ≤ rawY) (hyhi : rawY ≤ 32767)
    (hr : (v.sticks i).stickRadius ≤ (v.sticks i).radius)
    (hD : (v.sticks i).radius - (v.sticks i).stickRadius < 16777219)
    (hcx1 : -2147483648 ≤ (v.sticks i).centerX - ((v.sticks i).radius - (v.sticks i).stickRadius))
    (hcx2 : (v.sticks i).centerX + ((v.sticks i).radius - (v.sticks i).stickRadius) ≤ 2147483647)
    (hcy1 : -2147483648 ≤ (v.sticks i).centerY - ((v.sticks i).radius - (v.sticks i).stickRadius))
    (hcy2 : (v.sticks i).centerY + ((v.sticks i).radius - (v.sticks i).stickRadius)
      ≤ 2147483647) :
    knobWithinBase ((handleStickMovement (handleStickMovement v (stickXAxis i) rawX)
      (stickYAxis i) rawY).sticks i) ∧
    (|rawX| ≤ 3276 → |rawY| ≤ 3276 →
      ((handleStickMovement (handleStickMovement v (stickXAxis i) rawX)
        (stickYAxis i) rawY).sticks i).getStickPosition
        = some ⟨(v.sticks i).centerX, (v.sticks i).centerY⟩) := by
  fin_cases i
  · show knobWithinBase ((handleStickMovement (handleStickMovement v SDL_CONTROLLER_AXIS_LEFTX
        rawX) SDL_CONTROLLER_AXIS_LEFTY rawY).sticks 0) ∧ _
    rw [handleStickMovement_leftY, handleStickMovement_leftX]
    exact stick_position_bound (v.sticks 0) rawX rawY (by simpa using hr) hD hcx1 hcx2 hcy1 hcy2
      hxlo hxhi hylo hyhi
  · show knobWithinBase ((handleStickMovement (handleStickMovement v SDL_CONTROLLER_AXIS_RIGHTX
        rawX) SDL_CONTROLLER_AXIS_RIGHTY rawY).sticks 1) ∧ _
    rw [handleStickMovement_rightY, handleStickMovement_rightX]
    exact stick_position_bound (v.sticks 1) rawX rawY (by simpa using hr) hD hcx1 hcx2 hcy1 hcy2
      hxlo hxhi hylo hyhi

theorem knob_within_base_bounded_travel_witness :
    knobWithinBase ((handleStickMovement (handleStickMovement sampleVisualizer (stickXAxis 1)
      32767) (stickYAxis 1) (-20000)).sticks 1) ∧
    ((handleStickMovement (handleStickMovement sampleVisualizer (stickXAxis 0) 3276)
      (stickYAxis 0) (-3276)).sticks 0).getStickPosition
      = some ⟨(sampleVisualizer.sticks 0).centerX, (sampleVisualizer.sticks 0).centerY⟩ :=
  ⟨(knob_within_base_bounded_travel sampleVisualizer 1 32767 (-20000) (by decide) (by decide)
      (by decide) (by decide) (by decide) (by decide) (by decide) (by decide) (by decide)
      (by decide)).1,
   (knob_within_base_bounded_travel sampleVisualizer 0 3276 (-3276) (by decide) (by decide)
      (by decide) (by decide) (by decide) (by decide) (by decide) (by decide) (by decide)
      (by decide)).2 (by decide) (by decide)⟩

/-! ## Acquisition and release of the SDL handles -/

/-- C8, at the failing input. When `TTF_OpenFont` fails, `initialize` releases
the renderer, the window, SDL_ttf and SDL, and the destructor's `cleanup`
releases all four a second time and also closes a font and a controller that
were never acquired.  For every failing step, every resource is released once
more than it was acquired. -/
theorem failed_initialize_releases_again (controllerFound : Bool) :
    (initializeVisualizer (some .TTF_OpenFont) controllerFound).2 = false ∧
    acquireCount (mainTrace (some .TTF_OpenFont) controllerFound) .renderer = 1 ∧
    releaseCount (mainTrace (some .TTF_OpenFont) controllerFound) .renderer = 2 ∧
    acquireCount (mainTrace (some .TTF_OpenFont) controllerFound) .window = 1 ∧
    releaseCount (mainTrace (some .TTF_OpenFont) controllerFound) .window = 2 ∧
    acquireCount (mainTrace (some .TTF_OpenFont) controllerFound) .font = 0 ∧
    releaseCount (mainTrace (some .TTF_OpenFont) controllerFound) .font = 1 ∧
    (∀ (step : InitStep) (r : Resource),
      releaseCount (mainTrace (some step) controllerFound) r =
        acquireCount (mainTrace (some step) controllerFound) r + 1) := by
  refine ⟨rfl, ?_, ?_, ?_, ?_, ?_, ?_, ?_⟩
  · cases controllerFound <;> decide
  · cases controllerFound <;> decide
  · cases controllerFound <;> decide
  · cases controllerFound <;> decide
  · cases controllerFound <;> decide
  · cases controllerFound <;> decide
  · intro step r
    cases controllerFound <;> cases step <;> cases r <;> decide

end TrimuiApp
